import Mathlib

/-!
Verification development for the hypermodeinc/manifest library.

This file gives a shallow embedding, in Lean, of the manifest-parsing and
normalization layer of the library (the second, current revision of
manifest.go: constant currentVersion = 2), together with theorems about the
embedded definitions.

Modelling conventions:
- Go strings are Lean String values; the SHA-256 hash is computed over the
  UTF-8 bytes of the string, exactly as Go does (bytes modelled as Nat).
- Go map[string]T values are modelled as association lists
  (List (String × T)) whose insertion operation replaces an existing binding
  in place; a nil Go map and an empty Go map are both modelled as [].
  Go map iteration order is unspecified; the model iterates in list order.
- encoding/json Unmarshal is modelled by explicit decoders over an inductive
  Json value type.  Like Go, a type mismatch does not abort decoding:
  the decoder records the first error and keeps decoding the remaining
  fields, so a value can be partially populated even when an error is
  reported.  Unknown object keys are ignored and null leaves the current
  value in place (null clears maps/slices), as in Go.  (Go additionally
  matches field names case-insensitively; the claims never depend on that,
  and the decoders here match field tags exactly.)
- hujson standardization (comment / trailing-comma stripping) is abstracted:
  an input byte sequence is either malformed (hujson parse failure) or
  standardizes to a Json value.  This follows the spec scope note that
  general JSON parsing is delegated to a standard parser.
- The template-placeholder regular expression of the source,
  (in Go syntax)  open open \s* (?: base64 open-paren (.+?) colon (.+?)
  close-paren | (.+?) ) \s* close close,
  is implemented by a bespoke matcher with RE2 leftmost-first semantics
  (alternation prefers the first branch, lazy groups prefer shorter,
  greedy \s* prefers longer, backtracking on failure); the dot matches any
  character except newline and \s is the RE2 class tab, newline, formfeed,
  carriage return, space.
-/

namespace GoManifest

/-! ## SHA-256 (crypto/sha256), over Nat-modelled bytes and 32-bit words -/

/-- Reduce a Nat to a 32-bit word. -/
def toW32 (n : Nat) : Nat := n % 4294967296

/-- Rotate a 32-bit word right by n bits. -/
def rotr32 (n x : Nat) : Nat := toW32 ((x >>> n) ||| (x <<< (32 - n)))

def bsig0 (x : Nat) : Nat := (rotr32 2 x) ^^^ (rotr32 13 x) ^^^ (rotr32 22 x)
def bsig1 (x : Nat) : Nat := (rotr32 6 x) ^^^ (rotr32 11 x) ^^^ (rotr32 25 x)
def ssig0 (x : Nat) : Nat := (rotr32 7 x) ^^^ (rotr32 18 x) ^^^ (x >>> 3)
def ssig1 (x : Nat) : Nat := (rotr32 17 x) ^^^ (rotr32 19 x) ^^^ (x >>> 10)

/-- The 64 SHA-256 round constants. -/
def sha256K : List Nat :=
  [1116352408, 1899447441, 3049323471, 3921009573, 961987163, 1508970993,
   2453635748, 2870763221, 3624381080, 310598401, 607225278, 1426881987,
   1925078388, 2162078206, 2614888103, 3248222580, 3835390401, 4022224774,
   264347078, 604807628, 770255983, 1249150122, 1555081692, 1996064986,
   2554220882, 2821834349, 2952996808, 3210313671, 3336571891, 3584528711,
   113926993, 338241895, 666307205, 773529912, 1294757372, 1396182291,
   1695183700, 1986661051, 2177026350, 2456956037, 2730485921, 2820302411,
   3259730800, 3345764771, 3516065817, 3600352804, 4094571909, 275423344,
   430227734, 506948616, 659060556, 883997877, 958139571, 1322822218,
   1537002063, 1747873779, 1955562222, 2024104815, 2227730452, 2361852424,
   2428436474, 2756734187, 3204031479, 3329325298]

/-- SHA-256 working state: eight 32-bit words. -/
structure Sha256State where
  a : Nat
  b : Nat
  c : Nat
  d : Nat
  e : Nat
  f : Nat
  g : Nat
  h : Nat

/-- The SHA-256 initial hash value. -/
def sha256Init : Sha256State :=
  ⟨1779033703, 3144134277, 1013904242, 2773480762,
   1359893119, 2600822924, 528734635, 1541459225⟩

/-- One SHA-256 round, consuming one round constant and one schedule word. -/
def sha256Round (st : Sha256State) (kw : Nat × Nat) : Sha256State :=
  let ch := (st.e &&& st.f) ^^^ ((st.e ^^^ 4294967295) &&& st.g)
  let maj := (st.a &&& st.b) ^^^ (st.a &&& st.c) ^^^ (st.b &&& st.c)
  let t1 := toW32 (st.h + bsig1 st.e + ch + kw.1 + kw.2)
  let t2 := toW32 (bsig0 st.a + maj)
  ⟨toW32 (t1 + t2), st.a, st.b, st.c, toW32 (st.d + t1), st.e, st.f, st.g⟩

/-- Extend a 16-word block to the 64-word message schedule (append k words). -/
def sha256Extend : Nat → List Nat → List Nat
  | 0, ws => ws
  | k + 1, ws =>
      let i := ws.length
      let w := toW32 (ssig1 (ws.getD (i - 2) 0) + ws.getD (i - 7) 0 +
                      ssig0 (ws.getD (i - 15) 0) + ws.getD (i - 16) 0)
      sha256Extend k (ws ++ [w])

/-- Big-endian byte rendering of a Nat, k bytes. -/
def beBytes : Nat → Nat → List Nat
  | 0, _ => []
  | k + 1, n => ((n >>> (8 * k)) % 256) :: beBytes k n

/-- Group bytes, four at a time big-endian, into 32-bit words. -/
def bytesToWords : List Nat → List Nat
  | b1 :: b2 :: b3 :: b4 :: rest =>
      (((b1 * 256 + b2) * 256 + b3) * 256 + b4) :: bytesToWords rest
  | _ => []

/-- Compress one 64-byte block into the state. -/
def sha256Compress (st : Sha256State) (block : List Nat) : Sha256State :=
  let ws := sha256Extend 48 (bytesToWords block)
  let r := (sha256K.zip ws).foldl sha256Round st
  ⟨toW32 (st.a + r.a), toW32 (st.b + r.b), toW32 (st.c + r.c), toW32 (st.d + r.d),
   toW32 (st.e + r.e), toW32 (st.f + r.f), toW32 (st.g + r.g), toW32 (st.h + r.h)⟩

/-- Process the padded message, n blocks of 64 bytes, structurally on n. -/
def sha256Blocks : Nat → Sha256State → List Nat → Sha256State
  | 0, st, _ => st
  | n + 1, st, bytes => sha256Blocks n (sha256Compress st (bytes.take 64)) (bytes.drop 64)

/-- SHA-256 padding: 0x80, zeros to 56 mod 64, 8-byte big-endian bit length. -/
def sha256Pad (msg : List Nat) : List Nat :=
  msg ++ 128 :: List.replicate ((119 - msg.length % 64) % 64) 0 ++ beBytes 8 (8 * msg.length)

/-- UTF-8 encoding of a character, as Go produces for its strings. -/
def utf8Bytes (c : Char) : List Nat :=
  let n := c.toNat
  if n < 128 then [n]
  else if n < 2048 then [192 + n / 64, 128 + n % 64]
  else if n < 65536 then [224 + n / 4096, 128 + (n / 64) % 64, 128 + n % 64]
  else [240 + n / 262144, 128 + (n / 4096) % 64, 128 + (n / 64) % 64, 128 + n % 64]

def strBytes (s : String) : List Nat := (s.data.map utf8Bytes).flatten

/-- Lower-case hex digit for a nibble (hex.EncodeToString). -/
def hexDigit (n : Nat) : Char :=
  if n < 10 then Char.ofNat (48 + n) else Char.ofNat (87 + n)

/-- Render one 32-bit word as 8 lower-case hex characters. -/
def hexWord (w : Nat) : List Char :=
  [28, 24, 20, 16, 12, 8, 4, 0].map (fun s => hexDigit ((w >>> s) % 16))

/-- sha256.Sum256 followed by hex.EncodeToString, on a Go string. -/
def sha256hex (s : String) : String :=
  let padded := sha256Pad (strBytes s)
  let st := sha256Blocks (padded.length / 64) sha256Init padded
  String.mk (hexWord st.a ++ hexWord st.b ++ hexWord st.c ++ hexWord st.d ++
             hexWord st.e ++ hexWord st.f ++ hexWord st.g ++ hexWord st.h)

set_option maxRecDepth 100000 in
/-- Validation of the SHA-256 embedding against the standard test vector. -/
theorem sha256hex_abc :
    sha256hex "abc" = "ba7816bf8f01cfea414140de5dae2223b00361a396177a9cb410ff61f20015ad" := by
  decide

/-! ## Association-list model of Go maps -/

/-- Go map assignment m[k] = v: replace an existing binding in place,
otherwise append. -/
def mapInsert {α : Type} (m : List (String × α)) (k : String) (v : α) :
    List (String × α) :=
  match m with
  | [] => [(k, v)]
  | (k1, v1) :: rest => if k1 = k then (k, v) :: rest else (k1, v1) :: mapInsert rest k v

/-- Go map lookup m[k] (first binding; bindings are unique when the list is
built with mapInsert). -/
def mapGet? {α : Type} (m : List (String × α)) (k : String) : Option α :=
  match m with
  | [] => none
  | (k1, v1) :: rest => if k1 = k then some v1 else mapGet? rest k

/-! ## Go fmt rendering of map[string]string (fmt.Sprintf with the v verb) -/

/-- Insertion into a key-sorted list, ordering by Go string comparison
(byte-lexicographic; for the Char-list model, the String less-than order). -/
def insertSorted (x : String × String) :
    List (String × String) → List (String × String)
  | [] => [x]
  | y :: ys => if y.1 < x.1 then y :: insertSorted x ys else x :: y :: ys

/-- Sort map entries by key, as the fmt package does before printing a map. -/
def sortByKey (l : List (String × String)) : List (String × String) :=
  l.foldr insertSorted []

def joinSpace : List String → String
  | [] => ""
  | [x] => x
  | x :: xs => x ++ " " ++ joinSpace xs

/-- fmt.Sprintf of a map[string]string: entries sorted by key, each rendered
key colon value, space separated, wrapped in map[...]. A nil map renders as
map[] just like an empty one. -/
def goFmtMap (m : List (String × String)) : String :=
  "map[" ++ joinSpace ((sortByKey m).map (fun p => p.1 ++ ":" ++ p.2)) ++ "]"

/-! ## Data model (current revision of manifest.go, currentVersion = 2) -/

/-- This version should only be incremented if there are major breaking
changes to the manifest schema (const currentVersion in manifest.go). -/
def currentVersion : Int := 2

/-- Reserved variable name carrying a legacy v1 auth-header secret forward
(const V1AuthHeaderVariableName in manifest.go). -/
def V1AuthHeaderVariableName : String := "__V1_AUTH_HEADER_VALUE__"

structure ModelInfo where
  Name : String
  SourceModel : String
  Provider : String
  Host : String
deriving DecidableEq

structure HostInfo where
  Name : String
  Endpoint : String
  BaseURL : String
  Headers : List (String × String)
  QueryParameters : List (String × String)
deriving DecidableEq

structure OptionsInfo where
  EfConstruction : Int
  MaxLevels : Int
deriving DecidableEq

/-- IndexInfo; the Go field Type is named Type' because Type is a Lean
keyword. -/
structure IndexInfo where
  Type' : String
  Options : OptionsInfo
deriving DecidableEq

structure SearchMethodInfo where
  Embedder : String
  Index : IndexInfo
deriving DecidableEq

structure CollectionInfo where
  SearchMethods : List (String × SearchMethodInfo)
deriving DecidableEq

structure HypermodeManifest where
  Version : Int
  Models : List (String × ModelInfo)
  Hosts : List (String × HostInfo)
  Collections : List (String × CollectionInfo)
deriving DecidableEq

def zeroModelInfo : ModelInfo := ⟨"", "", "", ""⟩
def zeroHostInfo : HostInfo := ⟨"", "", "", [], []⟩
def zeroOptionsInfo : OptionsInfo := ⟨0, 0⟩
def zeroIndexInfo : IndexInfo := ⟨"", zeroOptionsInfo⟩
def zeroSearchMethodInfo : SearchMethodInfo := ⟨"", zeroIndexInfo⟩
def zeroCollectionInfo : CollectionInfo := ⟨[]⟩
def zeroManifest : HypermodeManifest := ⟨0, [], [], []⟩

/-- The v1 (compat/v1) model shape: a list entry carrying its own name. -/
structure V1Model where
  Name : String
  Task : String
  SourceModel : String
  Provider : String
  Host : String
deriving DecidableEq

/-- The v1 (compat/v1) host shape: a single endpoint and an optional
auth-header name. -/
structure V1Host where
  Name : String
  Endpoint : String
  AuthHeader : String
deriving DecidableEq

structure V1HypermodeManifest where
  Models : List V1Model
  Hosts : List V1Host
deriving DecidableEq

def zeroV1Model : V1Model := ⟨"", "", "", "", ""⟩
def zeroV1Host : V1Host := ⟨"", "", ""⟩

/-! ## Content hashes (ModelInfo.Hash and HostInfo.Hash) -/

/-- The delimiter-joined attribute concatenation hashed by ModelInfo.Hash. -/
def modelHashData (m : ModelInfo) : String :=
  m.Name ++ "|" ++ m.SourceModel ++ "|" ++ m.Provider ++ "|" ++ m.Host

/-- ModelInfo.Hash: SHA-256 of the joined attributes, lower-case hex. -/
def ModelInfo.Hash (m : ModelInfo) : String := sha256hex (modelHashData m)

/-- The delimiter-joined attribute concatenation hashed by HostInfo.Hash;
the two maps are rendered with fmt.Sprintf using the v verb. -/
def hostHashData (h : HostInfo) : String :=
  h.Name ++ "|" ++ h.Endpoint ++ "|" ++ h.BaseURL ++ "|" ++
    goFmtMap h.Headers ++ "|" ++ goFmtMap h.QueryParameters

/-- HostInfo.Hash: SHA-256 of the joined attributes, lower-case hex. -/
def HostInfo.Hash (h : HostInfo) : String := sha256hex (hostHashData h)

set_option maxRecDepth 100000 in
/-- Validation of HostInfo.Hash against the hash expected by the
repository's own TestHostInfo_Hash test. -/
theorem hostInfoHash_testVector :
    HostInfo.Hash
      ⟨"my-host", "https://example.com/api", "https://example.com/api",
       [("Authorization", "Bearer \x7b\x7bAPI_TOKEN\x7d\x7d")],
       [("api_token", "\x7b\x7bAPI_TOKEN\x7d\x7d")]⟩ =
    "897ba7738c819211a9291f402bbdda529aadd4f83107ee08157e72bc12e915ec" := by
  decide

/-! ## JSON values and the encoding/json decoders -/

/-- A standard JSON value (numbers restricted to integers; the manifest
schema uses only integer numerics). -/
inductive Json where
  | null
  | bool (b : Bool)
  | num (n : Int)
  | str (s : String)
  | arr (elems : List Json)
  | obj (fields : List (String × Json))

/-- Errors arising in ReadManifest, keeping the wrapping structure of the
Go errors. -/
inductive ManifestError where
  /-- hujson parse failure in standardizeJSON. -/
  | malformedInput
  /-- A json.Unmarshal type error (the expected Go type). -/
  | unmarshalTypeError (expected : String)
  /-- fmt.Errorf with the failed-to-parse-manifest text wrapping an error. -/
  | parseWrap (e : ManifestError)
deriving DecidableEq

/-- Keep the first error, as the json decoder's saveError does. -/
def errFirst (e1 e2 : Option ManifestError) : Option ManifestError :=
  match e1 with
  | some e => some e
  | none => e2

/-- Decode a JSON value into a Go string field holding cur. -/
def decodeString (cur : String) : Json → String × Option ManifestError
  | .str s => (s, none)
  | .null => (cur, none)
  | _ => (cur, some (.unmarshalTypeError "string"))

/-- Decode a JSON value into a Go int field holding cur. -/
def decodeInt (cur : Int) : Json → Int × Option ManifestError
  | .num n => (n, none)
  | .null => (cur, none)
  | _ => (cur, some (.unmarshalTypeError "int"))

/-- Decode a JSON value into a Go map[string]string holding cur. -/
def decodeStringMap (cur : List (String × String)) :
    Json → List (String × String) × Option ManifestError
  | .null => ([], none)
  | .obj fields =>
      fields.foldl
        (fun acc kv =>
          let r := decodeString "" kv.2
          (mapInsert acc.1 kv.1 r.1, errFirst acc.2 r.2))
        (cur, none)
  | _ => (cur, some (.unmarshalTypeError "map[string]string"))

/-- Decode a JSON value into a ModelInfo holding cur.  The Name field has
json tag dash and is never populated from JSON. -/
def decodeModelInfo (cur : ModelInfo) : Json → ModelInfo × Option ManifestError
  | .null => (cur, none)
  | .obj fields =>
      fields.foldl
        (fun acc kv =>
          if kv.1 = "sourceModel" then
            let r := decodeString acc.1.SourceModel kv.2
            ({ acc.1 with SourceModel := r.1 }, errFirst acc.2 r.2)
          else if kv.1 = "provider" then
            let r := decodeString acc.1.Provider kv.2
            ({ acc.1 with Provider := r.1 }, errFirst acc.2 r.2)
          else if kv.1 = "host" then
            let r := decodeString acc.1.Host kv.2
            ({ acc.1 with Host := r.1 }, errFirst acc.2 r.2)
          else acc)
        (cur, none)
  | _ => (cur, some (.unmarshalTypeError "manifest.ModelInfo"))

/-- Decode a JSON value into a HostInfo holding cur.  The Name field has
json tag dash and is never populated from JSON. -/
def decodeHostInfo (cur : HostInfo) : Json → HostInfo × Option ManifestError
  | .null => (cur, none)
  | .obj fields =>
      fields.foldl
        (fun acc kv =>
          if kv.1 = "endpoint" then
            let r := decodeString acc.1.Endpoint kv.2
            ({ acc.1 with Endpoint := r.1 }, errFirst acc.2 r.2)
          else if kv.1 = "baseURL" then
            let r := decodeString acc.1.BaseURL kv.2
            ({ acc.1 with BaseURL := r.1 }, errFirst acc.2 r.2)
          else if kv.1 = "headers" then
            let r := decodeStringMap acc.1.Headers kv.2
            ({ acc.1 with Headers := r.1 }, errFirst acc.2 r.2)
          else if kv.1 = "queryParameters" then
            let r := decodeStringMap acc.1.QueryParameters kv.2
            ({ acc.1 with QueryParameters := r.1 }, errFirst acc.2 r.2)
          else acc)
        (cur, none)
  | _ => (cur, some (.unmarshalTypeError "manifest.HostInfo"))

def decodeOptionsInfo (cur : OptionsInfo) : Json → OptionsInfo × Option ManifestError
  | .null => (cur, none)
  | .obj fields =>
      fields.foldl
        (fun acc kv =>
          if kv.1 = "efConstruction" then
            let r := decodeInt acc.1.EfConstruction kv.2
            ({ acc.1 with EfConstruction := r.1 }, errFirst acc.2 r.2)
          else if kv.1 = "maxLevels" then
            let r := decodeInt acc.1.MaxLevels kv.2
            ({ acc.1 with MaxLevels := r.1 }, errFirst acc.2 r.2)
          else acc)
        (cur, none)
  | _ => (cur, some (.unmarshalTypeError "manifest.OptionsInfo"))

def decodeIndexInfo (cur : IndexInfo) : Json → IndexInfo × Option ManifestError
  | .null => (cur, none)
  | .obj fields =>
      fields.foldl
        (fun acc kv =>
          if kv.1 = "type" then
            let r := decodeString acc.1.Type' kv.2
            ({ acc.1 with Type' := r.1 }, errFirst acc.2 r.2)
          else if kv.1 = "options" then
            let r := decodeOptionsInfo acc.1.Options kv.2
            ({ acc.1 with Options := r.1 }, errFirst acc.2 r.2)
          else acc)
        (cur, none)
  | _ => (cur, some (.unmarshalTypeError "manifest.IndexInfo"))

def decodeSearchMethodInfo (cur : SearchMethodInfo) :
    Json → SearchMethodInfo × Option ManifestError
  | .null => (cur, none)
  | .obj fields =>
      fields.foldl
        (fun acc kv =>
          if kv.1 = "embedder" then
            let r := decodeString acc.1.Embedder kv.2
            ({ acc.1 with Embedder := r.1 }, errFirst acc.2 r.2)
          else if kv.1 = "index" then
            let r := decodeIndexInfo acc.1.Index kv.2
            ({ acc.1 with Index := r.1 }, errFirst acc.2 r.2)
          else acc)
        (cur, none)
  | _ => (cur, some (.unmarshalTypeError "manifest.SearchMethodInfo"))

/-- Decode a JSON object into a Go map whose element type has decoder
decElem (each element decoded into a fresh zero value, as Go allocates). -/
def decodeObjMap {α : Type} (zero : α)
    (decElem : α → Json → α × Option ManifestError) (typeName : String)
    (cur : List (String × α)) : Json → List (String × α) × Option ManifestError
  | .null => ([], none)
  | .obj fields =>
      fields.foldl
        (fun acc kv =>
          let r := decElem zero kv.2
          (mapInsert acc.1 kv.1 r.1, errFirst acc.2 r.2))
        (cur, none)
  | _ => (cur, some (.unmarshalTypeError typeName))

def decodeCollectionInfo (cur : CollectionInfo) :
    Json → CollectionInfo × Option ManifestError
  | .null => (cur, none)
  | .obj fields =>
      fields.foldl
        (fun acc kv =>
          if kv.1 = "searchMethods" then
            let r := decodeObjMap zeroSearchMethodInfo decodeSearchMethodInfo
              "map[string]manifest.SearchMethodInfo" acc.1.SearchMethods kv.2
            ({ acc.1 with SearchMethods := r.1 }, errFirst acc.2 r.2)
          else acc)
        (cur, none)
  | _ => (cur, some (.unmarshalTypeError "manifest.CollectionInfo"))

/-- json.Unmarshal into the current HypermodeManifest shape.  Version has
json tag dash and is never populated from JSON. -/
def decodeManifest (cur : HypermodeManifest) :
    Json → HypermodeManifest × Option ManifestError
  | .null => (cur, none)
  | .obj fields =>
      fields.foldl
        (fun acc kv =>
          if kv.1 = "models" then
            let r := decodeObjMap zeroModelInfo decodeModelInfo
              "map[string]manifest.ModelInfo" acc.1.Models kv.2
            ({ acc.1 with Models := r.1 }, errFirst acc.2 r.2)
          else if kv.1 = "hosts" then
            let r := decodeObjMap zeroHostInfo decodeHostInfo
              "map[string]manifest.HostInfo" acc.1.Hosts kv.2
            ({ acc.1 with Hosts := r.1 }, errFirst acc.2 r.2)
          else if kv.1 = "collections" then
            let r := decodeObjMap zeroCollectionInfo decodeCollectionInfo
              "map[string]manifest.CollectionInfo" acc.1.Collections kv.2
            ({ acc.1 with Collections := r.1 }, errFirst acc.2 r.2)
          else acc)
        (cur, none)
  | _ => (cur, some (.unmarshalTypeError "manifest.HypermodeManifest"))

def decodeV1Model (cur : V1Model) : Json → V1Model × Option ManifestError
  | .null => (cur, none)
  | .obj fields =>
      fields.foldl
        (fun acc kv =>
          if kv.1 = "name" then
            let r := decodeString acc.1.Name kv.2
            ({ acc.1 with Name := r.1 }, errFirst acc.2 r.2)
          else if kv.1 = "task" then
            let r := decodeString acc.1.Task kv.2
            ({ acc.1 with Task := r.1 }, errFirst acc.2 r.2)
          else if kv.1 = "sourceModel" then
            let r := decodeString acc.1.SourceModel kv.2
            ({ acc.1 with SourceModel := r.1 }, errFirst acc.2 r.2)
          else if kv.1 = "provider" then
            let r := decodeString acc.1.Provider kv.2
            ({ acc.1 with Provider := r.1 }, errFirst acc.2 r.2)
          else if kv.1 = "host" then
            let r := decodeString acc.1.Host kv.2
            ({ acc.1 with Host := r.1 }, errFirst acc.2 r.2)
          else acc)
        (cur, none)
  | _ => (cur, some (.unmarshalTypeError "v1.Model"))

def decodeV1Host (cur : V1Host) : Json → V1Host × Option ManifestError
  | .null => (cur, none)
  | .obj fields =>
      fields.foldl
        (fun acc kv =>
          if kv.1 = "name" then
            let r := decodeString acc.1.Name kv.2
            ({ acc.1 with Name := r.1 }, errFirst acc.2 r.2)
          else if kv.1 = "endpoint" then
            let r := decodeString acc.1.Endpoint kv.2
            ({ acc.1 with Endpoint := r.1 }, errFirst acc.2 r.2)
          else if kv.1 = "authHeader" then
            let r := decodeString acc.1.AuthHeader kv.2
            ({ acc.1 with AuthHeader := r.1 }, errFirst acc.2 r.2)
          else acc)
        (cur, none)
  | _ => (cur, some (.unmarshalTypeError "v1.Host"))

/-- Decode a JSON array into a Go slice whose element type has decoder
decElem from zero.  (In ReadManifest the target slice is always freshly
zero, so the incoming slice contributes no elements.) -/
def decodeArray {α : Type} (zero : α)
    (decElem : α → Json → α × Option ManifestError) (typeName : String)
    (cur : List α) : Json → List α × Option ManifestError
  | .null => ([], none)
  | .arr elems =>
      elems.foldl
        (fun acc el =>
          let r := decElem zero el
          (acc.1 ++ [r.1], errFirst acc.2 r.2))
        ([], none)
  | _ => (cur, some (.unmarshalTypeError typeName))

/-- json.Unmarshal into the v1 HypermodeManifest shape. -/
def decodeV1Manifest (cur : V1HypermodeManifest) :
    Json → V1HypermodeManifest × Option ManifestError
  | .null => (cur, none)
  | .obj fields =>
      fields.foldl
        (fun acc kv =>
          if kv.1 = "models" then
            let r := decodeArray zeroV1Model decodeV1Model "[]v1.Model"
              acc.1.Models kv.2
            ({ acc.1 with Models := r.1 }, errFirst acc.2 r.2)
          else if kv.1 = "hosts" then
            let r := decodeArray zeroV1Host decodeV1Host "[]v1.Host"
              acc.1.Hosts kv.2
            ({ acc.1 with Hosts := r.1 }, errFirst acc.2 r.2)
          else acc)
        (cur, none)
  | _ => (cur, some (.unmarshalTypeError "v1.HypermodeManifest"))

/-! ## ReadManifest and the two version-specific parse paths -/

/-- parseManifestJson: decode the current shape; on success set the version
marker to the current constant and copy every map key onto the Name field of
its value (the name back-fill).  On a decode error the partially decoded
manifest is kept, exactly as the Go pointer argument is left mutated. -/
def parseManifestJson (data : Json) (manifest : HypermodeManifest) :
    HypermodeManifest × Option ManifestError :=
  let r := decodeManifest manifest data
  match r.2 with
  | some e => (r.1, some (.parseWrap e))
  | none =>
      let m := { r.1 with Version := currentVersion }
      let models := m.Models.map (fun (p : String × ModelInfo) => (p.1, { p.2 with Name := p.1 }))
      let hosts := m.Hosts.map (fun (p : String × HostInfo) => (p.1, { p.2 with Name := p.1 }))
      ({ m with Models := models, Hosts := hosts }, none)

/-- Translation of a v1 model entry into the current ModelInfo (the struct
literal inside the models loop of parseManifestJsonV1). -/
def translateV1Model (model : V1Model) : ModelInfo :=
  ⟨model.Name, model.SourceModel, model.Provider, model.Host⟩

/-- Translation of a v1 host entry into the current HostInfo (the struct
literal and auth-header synthesis inside the hosts loop of
parseManifestJsonV1).  In v1 the endpoint was used for both endpoint and
baseURL purposes, so it populates both fields; a non-empty AuthHeader
synthesizes a single Headers entry holding the placeholder for the reserved
variable name. -/
def translateV1Host (host : V1Host) : HostInfo :=
  { Name := host.Name
    Endpoint := host.Endpoint
    BaseURL := host.Endpoint
    Headers :=
      if host.AuthHeader ≠ "" then
        [(host.AuthHeader, "\x7b\x7b" ++ V1AuthHeaderVariableName ++ "\x7d\x7d")]
      else []
    QueryParameters := [] }

/-- parseManifestJsonV1: decode the v1 shape; on success set the version
marker to the literal 1 and rebuild the Models and Hosts maps from the v1
lists (later list entries overwrite earlier ones at the same name).  On a
decode error the incoming manifest is returned unchanged and the decode
error is propagated unwrapped. -/
def parseManifestJsonV1 (data : Json) (manifest : HypermodeManifest) :
    HypermodeManifest × Option ManifestError :=
  let r := decodeV1Manifest ⟨[], []⟩ data
  match r.2 with
  | some e => (manifest, some e)
  | none =>
      let models := r.1.Models.foldl
        (fun acc model => mapInsert acc model.Name (translateV1Model model)) []
      let hosts := r.1.Hosts.foldl
        (fun acc host => mapInsert acc host.Name (translateV1Host host)) []
      ({ manifest with Version := 1, Models := models, Hosts := hosts }, none)

/-- The input byte sequence, abstracted at the hujson boundary: either the
relaxed-JSON parse fails, or the bytes standardize to a JSON value. -/
inductive Input where
  | malformed
  | wellFormed (j : Json)

/-- ReadManifest: standardize, try the current shape, then the v1 shape,
and wrap the last error if both fail.  The Go value returned alongside an
error is whatever the attempts left in the manifest variable. -/
def readManifest (input : Input) : HypermodeManifest × Option ManifestError :=
  match input with
  | .malformed => (zeroManifest, some .malformedInput)
  | .wellFormed data =>
      let r1 := parseManifestJson data zeroManifest
      match r1.2 with
      | none => (r1.1, none)
      | some _ =>
          let r2 := parseManifestJsonV1 data r1.1
          match r2.2 with
          | none => (r2.1, none)
          | some e => (r2.1, some (.parseWrap e))

/-! ## The template placeholder extractor (templateRegex / extractVariables)

The source pattern, written with braces spelled out:  two open braces,
\s*, then either the base64 alternative  base64 open-paren (.+?) colon
(.+?) close-paren  or the simple alternative  (.+?), then \s* and two close
braces.  The matcher below implements exactly RE2 leftmost-first matching
for this pattern: the scan tries each start position left to right; at one
position the greedy \s* prefers consuming more whitespace, the alternation
prefers the base64 branch, and each lazy group prefers the shortest
extension, backtracking into longer ones while the continuation fails. -/

/-- The RE2 whitespace class (backslash-s): tab, newline, formfeed,
carriage return, space. -/
def isWs (c : Char) : Bool :=
  c = ' ' || c = '\t' || c = '\n' || c = '\x0c' || c = '\r'

/-- Length of the maximal whitespace prefix. -/
def countWs : List Char → Nat
  | [] => 0
  | c :: cs => if isWs c then countWs cs + 1 else 0

/-- Match \s* then the two closing braces at the head; returns the number of
whitespace characters consumed.  (The closing braces are not whitespace, so
the greedy \s* here is deterministic.) -/
def matchCloseBraces (cs : List Char) : Option Nat :=
  let w := countWs cs
  if (cs.drop w).take 2 = ['\x7d', '\x7d'] then some w else none

/-- Lazy group (.+?) followed by \s* and the closing braces, preferring the
shortest group.  The regexp dot excludes newline.  Returns the group and the
total number of characters consumed. -/
def grabSimple : List Char → Option (List Char × Nat)
  | [] => none
  | c :: cs =>
      if c = '\n' then none
      else
        match matchCloseBraces cs with
        | some w => some ([c], 1 + w + 2)
        | none =>
            match grabSimple cs with
            | some r => some (c :: r.1, r.2 + 1)
            | none => none

/-- Match the closing paren, then \s* and the closing braces, at the head. -/
def closeAfterParen : List Char → Option Nat
  | ')' :: cs =>
      match matchCloseBraces cs with
      | some w => some (1 + w + 2)
      | none => none
  | _ => none

/-- Lazy group (.+?) followed by close-paren \s* close-braces, preferring
the shortest group and backtracking into longer ones. -/
def grabPairSecond : List Char → Option (List Char × Nat)
  | [] => none
  | c :: cs =>
      if c = '\n' then none
      else
        match closeAfterParen cs with
        | some k => some ([c], 1 + k)
        | none =>
            match grabPairSecond cs with
            | some r => some (c :: r.1, r.2 + 1)
            | none => none

/-- Match the colon and then the second lazy group at the head. -/
def pairSecondAfterColon : List Char → Option (List Char × Nat)
  | ':' :: cs =>
      match grabPairSecond cs with
      | some r => some (r.1, 1 + r.2)
      | none => none
  | _ => none

/-- First lazy group (.+?) of the base64 branch, followed by the colon and
the second group; prefers the shortest first group and backtracks into
longer ones (so a colon can end up inside the first group when the
continuation fails at an earlier colon). -/
def grabPairFirst : List Char → Option (List Char × List Char × Nat)
  | [] => none
  | c :: cs =>
      if c = '\n' then none
      else
        match pairSecondAfterColon cs with
        | some r => some ([c], r.1, 1 + r.2)
        | none =>
            match grabPairFirst cs with
            | some r => some (c :: r.1, r.2.1, r.2.2 + 1)
            | none => none

/-- The literal text of the base64 branch head: base64 and an open paren. -/
def base64Head : List Char := ['b', 'a', 's', 'e', '6', '4', '(']

/-- The base64 alternative at a fixed position (after the open braces and
consumed whitespace): the literal head, then the two lazy groups. -/
def tryBase64At (cs : List Char) : Option (List String × Nat) :=
  if cs.take 7 = base64Head then
    match grabPairFirst (cs.drop 7) with
    | some r => some ([String.mk r.1, String.mk r.2.1], 7 + r.2.2)
    | none => none
  else none

/-- The simple alternative at a fixed position. -/
def trySimpleAt (cs : List Char) : Option (List String × Nat) :=
  match grabSimple cs with
  | some r => some ([String.mk r.1], r.2)
  | none => none

/-- The alternation: the base64 branch is preferred. -/
def tryAltAt (cs : List Char) : Option (List String × Nat) :=
  match tryBase64At cs with
  | some r => some r
  | none => trySimpleAt cs

/-- The greedy outer \s* after the open braces: w starts at the maximal
whitespace count and decreases while the alternation fails. -/
def tryWs : Nat → List Char → Option (List String × Nat)
  | w, cs =>
      match tryAltAt (cs.drop w) with
      | some r => some (r.1, w + r.2)
      | none =>
          match w with
          | 0 => none
          | w' + 1 => tryWs w' cs

/-- Anchored match of the whole pattern at the head of cs: the two opening
braces, then the whitespace-and-alternation engine.  Returns the list of
participating capture groups (the Go submatch entries that are non-empty)
and the number of characters consumed. -/
def matchPlaceholder (cs : List Char) : Option (List String × Nat) :=
  if cs.take 2 = ['\x7b', '\x7b'] then
    match tryWs (countWs (cs.drop 2)) (cs.drop 2) with
    | some r => some (r.1, r.2 + 2)
    | none => none
  else none

/-- The FindAllStringSubmatch scan with the source's capture-collection
loop: find non-overlapping leftmost matches, collecting the non-empty
capture groups of each in order; fuel bounds the recursion and is
instantiated with the string length (every step consumes at least one
character). -/
def extractLoopF : Nat → List Char → List String
  | 0, _ => []
  | fuel + 1, cs =>
      match matchPlaceholder cs with
      | some r => r.1 ++ extractLoopF fuel (cs.drop r.2)
      | none =>
          match cs with
          | [] => []
          | _ :: cs' => extractLoopF fuel cs'

/-- extractVariables: collect, in order, the variable names referenced by
the template placeholders of s.  A string with no placeholder yields []. -/
def extractVariables (s : String) : List String :=
  extractLoopF s.data.length s.data

/-- Proof-side restatement of extractVariables on character lists. -/
def extractVariablesL (cs : List Char) : List String :=
  extractLoopF cs.length cs

/-! ## Variable enumeration (HostInfo.GetVariables, GetHostVariables) -/

/-- The deduplicating accumulation step shared by both loops of
GetVariables: append each extracted variable unless it is already present
(the Go code keeps a set alongside the results list; the set's members are
exactly the results list's members, so the list stands for both). -/
def addVars (acc : List String) (vars : List String) : List String :=
  vars.foldl (fun acc2 v => if acc2.contains v then acc2 else acc2 ++ [v]) acc

/-- HostInfo.GetVariables: extract placeholder variables from every header
value, then from every query-parameter value, de-duplicating across the
combined scan. -/
def HostInfo.GetVariables (h : HostInfo) : List String :=
  let acc := h.Headers.foldl (fun acc p => addVars acc (extractVariables p.2)) []
  h.QueryParameters.foldl (fun acc p => addVars acc (extractVariables p.2)) acc

/-- The loop body of GetHostVariables: store the host's variable list under
its Name when the list is non-empty, otherwise leave the results alone. -/
def hostVarsStep (results : List (String × List String)) (p : String × HostInfo) :
    List (String × List String) :=
  let vars := p.2.GetVariables
  if vars.length > 0 then mapInsert results p.2.Name vars else results

/-- HypermodeManifest.GetHostVariables: map each host's Name to its
variable list, keeping only hosts whose list is non-empty. -/
def HypermodeManifest.GetHostVariables (m : HypermodeManifest) :
    List (String × List String) :=
  m.Hosts.foldl hostVarsStep []

/-! ## Association-list lemmas -/

theorem mem_mapInsert {α : Type} {m : List (String × α)} {k a : String} {v b : α}
    (h : (a, b) ∈ mapInsert m k v) : (a = k ∧ b = v) ∨ (a, b) ∈ m := by
  induction m with
  | nil =>
      simp [mapInsert] at h
      exact Or.inl ⟨h.1, h.2⟩
  | cons p rest ih =>
      rw [mapInsert] at h
      by_cases hk : p.1 = k
      · simp only [hk, if_pos rfl] at h
        rcases List.mem_cons.mp h with h1 | h1
        · exact Or.inl ⟨congrArg Prod.fst h1, congrArg Prod.snd h1⟩
        · exact Or.inr (List.mem_cons_of_mem _ h1)
      · simp only [if_neg hk] at h
        rcases List.mem_cons.mp h with h1 | h1
        · exact Or.inr (h1 ▸ List.mem_cons_self _ _)
        · rcases ih h1 with h2 | h2
          · exact Or.inl h2
          · exact Or.inr (List.mem_cons_of_mem _ h2)

theorem mapGet?_mapInsert_self {α : Type} (m : List (String × α)) (k : String) (v : α) :
    mapGet? (mapInsert m k v) k = some v := by
  induction m with
  | nil => simp [mapInsert, mapGet?]
  | cons p rest ih =>
      rw [mapInsert]
      by_cases hk : p.1 = k
      · simp [hk, mapGet?]
      · simp [hk, mapGet?, ih]

theorem mapGet?_mapInsert_ne {α : Type} (m : List (String × α)) {k k' : String} (v : α)
    (h : k' ≠ k) : mapGet? (mapInsert m k v) k' = mapGet? m k' := by
  induction m with
  | nil =>
      rw [mapInsert, mapGet?, mapGet?, if_neg (fun hc => h hc.symm), mapGet?]
  | cons p rest ih =>
      rw [mapInsert]
      by_cases hk : p.1 = k
      · simp only [if_pos hk]
        rw [mapGet?, mapGet?, hk, if_neg (fun hc : k = k' => h hc.symm),
          if_neg (fun hc : k = k' => h hc.symm)]
      · simp only [if_neg hk]
        rw [mapGet?, mapGet?, ih]

theorem mapGet?_isSome_mapInsert {α : Type} (m : List (String × α)) (k k' : String) (v : α)
    (h : (mapGet? m k').isSome) : (mapGet? (mapInsert m k v) k').isSome := by
  by_cases hk : k' = k
  · rw [hk, mapGet?_mapInsert_self]; rfl
  · rw [mapGet?_mapInsert_ne _ _ hk]; exact h

theorem keys_mapInsert {α : Type} {m : List (String × α)} {k a : String} {v : α}
    (h : a ∈ (mapInsert m k v).map Prod.fst) : a = k ∨ a ∈ m.map Prod.fst := by
  induction m with
  | nil => simp [mapInsert] at h; exact Or.inl h
  | cons p rest ih =>
      rw [mapInsert] at h
      by_cases hk : p.1 = k
      · simp only [if_pos hk, List.map_cons, List.mem_cons] at h
        rcases h with h1 | h1
        · exact Or.inl h1
        · exact Or.inr (by simp only [List.map_cons, List.mem_cons]; exact Or.inr h1)
      · simp only [if_neg hk, List.map_cons, List.mem_cons] at h
        rcases h with h1 | h1
        · exact Or.inr (by simp only [List.map_cons, List.mem_cons]; exact Or.inl h1)
        · rcases ih h1 with h2 | h2
          · exact Or.inl h2
          · exact Or.inr (by simp only [List.map_cons, List.mem_cons]; exact Or.inr h2)

theorem keysNodup_mapInsert {α : Type} {m : List (String × α)} (k : String) (v : α)
    (h : (m.map Prod.fst).Nodup) : ((mapInsert m k v).map Prod.fst).Nodup := by
  induction m with
  | nil => simp [mapInsert]
  | cons p rest ih =>
      rw [mapInsert]
      simp only [List.map_cons, List.nodup_cons] at h
      by_cases hk : p.1 = k
      · simp only [if_pos hk, List.map_cons, List.nodup_cons]
        exact ⟨hk ▸ h.1, h.2⟩
      · simp only [if_neg hk, List.map_cons, List.nodup_cons]
        refine ⟨fun hc => ?_, ih h.2⟩
        rcases keys_mapInsert hc with h1 | h1
        · exact hk h1
        · exact h.1 h1

/-- Membership in a fold of keyed insertions comes from the accumulator or
from a list element. -/
theorem mem_foldl_mapInsert {α β : Type} (key : β → String) (val : β → α) :
    ∀ (xs : List β) (acc : List (String × α)) (a : String) (b : α),
      (a, b) ∈ xs.foldl (fun m x => mapInsert m (key x) (val x)) acc →
      (a, b) ∈ acc ∨ ∃ x ∈ xs, a = key x ∧ b = val x := by
  intro xs
  induction xs with
  | nil => intro acc a b h; exact Or.inl h
  | cons x rest ih =>
      intro acc a b h
      rcases ih _ _ _ h with h1 | h1
      · rcases mem_mapInsert h1 with h2 | h2
        · exact Or.inr ⟨x, List.mem_cons_self _ _, h2⟩
        · exact Or.inl h2
      · rcases h1 with ⟨y, hy, hkv⟩
        exact Or.inr ⟨y, List.mem_cons_of_mem _ hy, hkv⟩

/-- The later of two same-keyed list entries: last element satisfying the
key equation (spec-side description of map-overwrite order). -/
def findLastKey {β : Type} (key : β → String) (k : String) : List β → Option β
  | [] => none
  | x :: xs =>
      match findLastKey key k xs with
      | some y => some y
      | none => if key x = k then some x else none

/-- Lookup in a fold of keyed insertions: the last matching list element
wins; otherwise the accumulator answers. -/
theorem mapGet?_foldl_mapInsert {α β : Type} (key : β → String) (val : β → α) :
    ∀ (xs : List β) (acc : List (String × α)) (k : String),
      mapGet? (xs.foldl (fun m x => mapInsert m (key x) (val x)) acc) k =
      match findLastKey key k xs with
      | some y => some (val y)
      | none => mapGet? acc k := by
  intro xs
  induction xs with
  | nil => intro acc k; simp [findLastKey]
  | cons x rest ih =>
      intro acc k
      rw [List.foldl_cons, ih, findLastKey]
      cases hfl : findLastKey key k rest with
      | some y => simp
      | none =>
          simp only []
          by_cases hk : key x = k
          · simp only [if_pos hk]
            rw [← hk, mapGet?_mapInsert_self]
          · simp only [if_neg hk]
            rw [mapGet?_mapInsert_ne _ _ (fun hc => hk hc.symm)]

/-! ## Facts about the two parse paths -/

theorem parseManifestJson_ok_version (j : Json) (m : HypermodeManifest)
    (h : (parseManifestJson j m).2 = none) :
    (parseManifestJson j m).1.Version = currentVersion := by
  rw [parseManifestJson] at h ⊢
  cases hd : (decodeManifest m j).2 with
  | some e => rw [hd] at h; simp at h
  | none => rfl

theorem parseManifestJsonV1_ok_version (j : Json) (m : HypermodeManifest)
    (h : (parseManifestJsonV1 j m).2 = none) :
    (parseManifestJsonV1 j m).1.Version = 1 := by
  rw [parseManifestJsonV1] at h ⊢
  cases hd : (decodeV1Manifest ⟨[], []⟩ j).2 with
  | some e => rw [hd] at h; simp at h
  | none => rfl

theorem readManifest_eq_of_current_ok (j : Json)
    (h : (parseManifestJson j zeroManifest).2 = none) :
    readManifest (.wellFormed j) = ((parseManifestJson j zeroManifest).1, none) := by
  rw [readManifest, h]

theorem readManifest_eq_of_fallback_ok (j : Json) {e : ManifestError}
    (h1 : (parseManifestJson j zeroManifest).2 = some e)
    (h2 : (parseManifestJsonV1 j (parseManifestJson j zeroManifest).1).2 = none) :
    readManifest (.wellFormed j) =
      ((parseManifestJsonV1 j (parseManifestJson j zeroManifest).1).1, none) := by
  simp only [readManifest, h1, h2]

theorem readManifest_eq_of_both_fail (j : Json) {e e2 : ManifestError}
    (h1 : (parseManifestJson j zeroManifest).2 = some e)
    (h2 : (parseManifestJsonV1 j (parseManifestJson j zeroManifest).1).2 = some e2) :
    readManifest (.wellFormed j) =
      ((parseManifestJsonV1 j (parseManifestJson j zeroManifest).1).1,
       some (.parseWrap e2)) := by
  simp only [readManifest, h1, h2]

theorem parseManifestJson_ok_models (j : Json) (m : HypermodeManifest)
    (h : (parseManifestJson j m).2 = none) :
    (parseManifestJson j m).1.Models =
      (decodeManifest m j).1.Models.map
        (fun (p : String × ModelInfo) => (p.1, { p.2 with Name := p.1 })) := by
  rw [parseManifestJson] at h ⊢
  cases hd : (decodeManifest m j).2 with
  | some e => rw [hd] at h; simp at h
  | none => rfl

theorem parseManifestJson_ok_hosts (j : Json) (m : HypermodeManifest)
    (h : (parseManifestJson j m).2 = none) :
    (parseManifestJson j m).1.Hosts =
      (decodeManifest m j).1.Hosts.map
        (fun (p : String × HostInfo) => (p.1, { p.2 with Name := p.1 })) := by
  rw [parseManifestJson] at h ⊢
  cases hd : (decodeManifest m j).2 with
  | some e => rw [hd] at h; simp at h
  | none => rfl

theorem parseManifestJsonV1_ok_models (j : Json) (m : HypermodeManifest)
    (h : (parseManifestJsonV1 j m).2 = none) :
    (parseManifestJsonV1 j m).1.Models =
      (decodeV1Manifest ⟨[], []⟩ j).1.Models.foldl
        (fun acc model => mapInsert acc model.Name (translateV1Model model)) [] := by
  rw [parseManifestJsonV1] at h ⊢
  cases hd : (decodeV1Manifest ⟨[], []⟩ j).2 with
  | some e => rw [hd] at h; simp at h
  | none => rfl

theorem parseManifestJsonV1_ok_hosts (j : Json) (m : HypermodeManifest)
    (h : (parseManifestJsonV1 j m).2 = none) :
    (parseManifestJsonV1 j m).1.Hosts =
      (decodeV1Manifest ⟨[], []⟩ j).1.Hosts.foldl
        (fun acc host => mapInsert acc host.Name (translateV1Host host)) [] := by
  rw [parseManifestJsonV1] at h ⊢
  cases hd : (decodeV1Manifest ⟨[], []⟩ j).2 with
  | some e => rw [hd] at h; simp at h
  | none => rfl

/-! ## Claim C1 -/

/-- Claim C1: ReadManifest first decodes against the current shape; exactly
when that fails it decodes against the single older (v1) shape; if both
fail the result is an error wrapping the v1 decode error; the version
marker is the current constant 2 on the current path and the literal 1 on
the fallback path. -/
theorem readManifest_current_then_single_v1_fallback (j : Json) :
    ((parseManifestJson j zeroManifest).2 = none →
      readManifest (.wellFormed j) = ((parseManifestJson j zeroManifest).1, none) ∧
      (readManifest (.wellFormed j)).1.Version = currentVersion) ∧
    (∀ e, (parseManifestJson j zeroManifest).2 = some e →
      ((parseManifestJsonV1 j (parseManifestJson j zeroManifest).1).2 = none →
        readManifest (.wellFormed j) =
          ((parseManifestJsonV1 j (parseManifestJson j zeroManifest).1).1, none) ∧
        (readManifest (.wellFormed j)).1.Version = 1) ∧
      (∀ e2, (parseManifestJsonV1 j (parseManifestJson j zeroManifest).1).2 = some e2 →
        readManifest (.wellFormed j) =
          ((parseManifestJsonV1 j (parseManifestJson j zeroManifest).1).1,
           some (ManifestError.parseWrap e2)))) := by
  constructor
  · intro h
    have he := readManifest_eq_of_current_ok j h
    exact ⟨he, by rw [he]; exact parseManifestJson_ok_version j _ h⟩
  · intro e he
    constructor
    · intro h2
      have hf := readManifest_eq_of_fallback_ok j he h2
      exact ⟨hf, by rw [hf]; exact parseManifestJsonV1_ok_version j _ h2⟩
    · intro e2 h2
      exact readManifest_eq_of_both_fail j he h2

/-- A valid current-shape document. -/
def c1CurrentDoc : Json := .obj [("models", .obj [("m1", .obj [("sourceModel", .str "s")])])]

/-- A v1-shape document (arrays where the current shape expects maps). -/
def c1V1Doc : Json :=
  .obj [("models", .arr []),
        ("hosts", .arr [.obj [("name", .str "h1"), ("endpoint", .str "e"),
                              ("authHeader", .str "A")]])]

/-- A document decodable under neither shape. -/
def c1BadDoc : Json := .num 3

theorem readManifest_current_then_single_v1_fallback_witness :
    (readManifest (.wellFormed c1CurrentDoc) =
        ((parseManifestJson c1CurrentDoc zeroManifest).1, none) ∧
      (readManifest (.wellFormed c1CurrentDoc)).1.Version = currentVersion) ∧
    (readManifest (.wellFormed c1V1Doc) =
        ((parseManifestJsonV1 c1V1Doc (parseManifestJson c1V1Doc zeroManifest).1).1, none) ∧
      (readManifest (.wellFormed c1V1Doc)).1.Version = 1) ∧
    readManifest (.wellFormed c1BadDoc) =
      ((parseManifestJsonV1 c1BadDoc (parseManifestJson c1BadDoc zeroManifest).1).1,
       some (ManifestError.parseWrap (.unmarshalTypeError "v1.HypermodeManifest"))) := by
  refine ⟨(readManifest_current_then_single_v1_fallback c1CurrentDoc).1 (by decide),
    ((readManifest_current_then_single_v1_fallback c1V1Doc).2
      (ManifestError.parseWrap (.unmarshalTypeError "map[string]manifest.ModelInfo"))
      (by decide)).1 (by decide),
    ((readManifest_current_then_single_v1_fallback c1BadDoc).2
      (ManifestError.parseWrap (.unmarshalTypeError "manifest.HypermodeManifest"))
      (by decide)).2 (.unmarshalTypeError "v1.HypermodeManifest") (by decide)⟩

/-! ## Claim C4 -/

/-- Shared helper: names equal keys in every successfully parsed manifest. -/
theorem readManifest_ok_names_eq_keys (j : Json) (m' : HypermodeManifest)
    (h : readManifest (.wellFormed j) = (m', none)) :
    (∀ k v, (k, v) ∈ m'.Models → v.Name = k) ∧
    (∀ k v, (k, v) ∈ m'.Hosts → v.Name = k) := by
  cases h1 : (parseManifestJson j zeroManifest).2 with
  | none =>
      have he := (readManifest_eq_of_current_ok j h1).symm.trans h
      have hm : m' = (parseManifestJson j zeroManifest).1 :=
        (congrArg Prod.fst he).symm
      subst hm
      constructor
      · intro k v hv
        rw [parseManifestJson_ok_models j _ h1] at hv
        rcases List.mem_map.mp hv with ⟨p, _, hp⟩
        have hk := congrArg Prod.fst hp
        have hval := congrArg Prod.snd hp
        simp only [] at hk hval
        rw [← hval, ← hk]
      · intro k v hv
        rw [parseManifestJson_ok_hosts j _ h1] at hv
        rcases List.mem_map.mp hv with ⟨p, _, hp⟩
        have hk := congrArg Prod.fst hp
        have hval := congrArg Prod.snd hp
        simp only [] at hk hval
        rw [← hval, ← hk]
  | some e =>
      cases h2 : (parseManifestJsonV1 j (parseManifestJson j zeroManifest).1).2 with
      | none =>
          have he := (readManifest_eq_of_fallback_ok j h1 h2).symm.trans h
          have hm : m' = (parseManifestJsonV1 j (parseManifestJson j zeroManifest).1).1 :=
            (congrArg Prod.fst he).symm
          subst hm
          constructor
          · intro k v hv
            rw [parseManifestJsonV1_ok_models j _ h2] at hv
            rcases mem_foldl_mapInsert V1Model.Name translateV1Model _ _ _ _ hv with h3 | h3
            · simp at h3
            · rcases h3 with ⟨x, _, hk, hval⟩
              rw [hval, hk]; rfl
          · intro k v hv
            rw [parseManifestJsonV1_ok_hosts j _ h2] at hv
            rcases mem_foldl_mapInsert V1Host.Name translateV1Host _ _ _ _ hv with h3 | h3
            · simp at h3
            · rcases h3 with ⟨x, _, hk, hval⟩
              rw [hval, hk]; rfl
      | some e2 =>
          have he := (readManifest_eq_of_both_fail j h1 h2).symm.trans h
          have : some (ManifestError.parseWrap e2) = (none : Option ManifestError) :=
            congrArg Prod.snd he
          simp at this

/-- Claim C4: in every manifest returned successfully by ReadManifest,
regardless of version path, every key of the models map equals the Name of
the stored ModelInfo, and every key of the hosts map equals the Name of the
stored HostInfo. -/
theorem parse_keys_match_names (j : Json) (m' : HypermodeManifest)
    (h : readManifest (.wellFormed j) = (m', none)) :
    (∀ k v, (k, v) ∈ m'.Models → v.Name = k) ∧
    (∀ k v, (k, v) ∈ m'.Hosts → v.Name = k) :=
  readManifest_ok_names_eq_keys j m' h

/-- A current-shape document with one model and one host. -/
def c4Doc : Json :=
  .obj [("models", .obj [("m1", .obj [("sourceModel", .str "s")])]),
        ("hosts", .obj [("h1", .obj [("endpoint", .str "e")])])]

/-- The manifest that c4Doc parses to. -/
def c4Manifest : HypermodeManifest :=
  ⟨2, [("m1", ⟨"m1", "s", "", ""⟩)], [("h1", ⟨"h1", "e", "", [], []⟩)], []⟩

theorem parse_keys_match_names_witness :
    (∀ k v, (k, v) ∈ c4Manifest.Models → v.Name = k) ∧
    (∀ k v, (k, v) ∈ c4Manifest.Hosts → v.Name = k) :=
  parse_keys_match_names c4Doc c4Manifest (by decide)

/-! ## Claim C2 -/

/-- Claim C2: every host in a manifest produced by the v1 fallback path
comes from a v1 host whose single endpoint populates both Endpoint and
BaseURL; a non-empty v1 authHeader yields exactly one Headers entry mapping
that header name to the placeholder for the reserved variable name, and an
empty authHeader yields no Headers entry at all. -/
theorem v1_fallback_host_translation (j : Json) (m0 m' : HypermodeManifest)
    (h : parseManifestJsonV1 j m0 = (m', none)) :
    ∀ k hst, (k, hst) ∈ m'.Hosts →
      ∃ v1h, v1h ∈ (decodeV1Manifest ⟨[], []⟩ j).1.Hosts ∧
        hst.Endpoint = v1h.Endpoint ∧ hst.BaseURL = v1h.Endpoint ∧
        (v1h.AuthHeader ≠ "" →
          hst.Headers =
            [(v1h.AuthHeader, "\x7b\x7b" ++ V1AuthHeaderVariableName ++ "\x7d\x7d")]) ∧
        (v1h.AuthHeader = "" → hst.Headers = []) := by
  intro k hst hmem
  have hv : (parseManifestJsonV1 j m0).2 = none := by rw [h]
  have hm : m' = (parseManifestJsonV1 j m0).1 := by rw [h]
  rw [hm, parseManifestJsonV1_ok_hosts j _ hv] at hmem
  rcases mem_foldl_mapInsert V1Host.Name translateV1Host _ _ _ _ hmem with h3 | h3
  · simp at h3
  · rcases h3 with ⟨x, hx, _, hval⟩
    refine ⟨x, hx, ?_, ?_, ?_, ?_⟩
    · rw [hval]; rfl
    · rw [hval]; rfl
    · intro hne
      rw [hval]
      simp only [translateV1Host, if_pos hne]
    · intro heq
      rw [hval]
      simp only [translateV1Host, heq]
      simp

/-- A v1-shape document with one auth-header host and one plain host. -/
def c2Doc : Json :=
  .obj [("hosts", .arr
    [.obj [("name", .str "h1"), ("endpoint", .str "https://x"),
           ("authHeader", .str "X-API-Key")],
     .obj [("name", .str "h2"), ("endpoint", .str "https://y")]])]

theorem v1_fallback_host_translation_witness :
    ∃ v1h, v1h ∈ (decodeV1Manifest ⟨[], []⟩ c2Doc).1.Hosts ∧
      ("https://x" : String) = v1h.Endpoint ∧ ("https://x" : String) = v1h.Endpoint ∧
      (v1h.AuthHeader ≠ "" →
        ([("X-API-Key", "\x7b\x7b__V1_AUTH_HEADER_VALUE__\x7d\x7d")] :
            List (String × String)) =
          [(v1h.AuthHeader, "\x7b\x7b" ++ V1AuthHeaderVariableName ++ "\x7d\x7d")]) ∧
      (v1h.AuthHeader = "" →
        ([("X-API-Key", "\x7b\x7b__V1_AUTH_HEADER_VALUE__\x7d\x7d")] :
            List (String × String)) = []) := by
  have H := v1_fallback_host_translation c2Doc zeroManifest
    (parseManifestJsonV1 c2Doc zeroManifest).1 (by decide) "h1"
    ⟨"h1", "https://x", "https://x",
     [("X-API-Key", "\x7b\x7b__V1_AUTH_HEADER_VALUE__\x7d\x7d")], []⟩ (by decide)
  exact H

/-! ## Claim C10 -/

/-- Claim C10: the v1 fallback path collapses duplicate names silently;
whenever the v1 decode succeeds the fallback parse succeeds (names are
never checked), and a lookup in the resulting models or hosts map returns
the translation of the last same-named list entry. -/
theorem v1_duplicate_names_later_wins (j : Json) (m0 : HypermodeManifest)
    (h : (decodeV1Manifest ⟨[], []⟩ j).2 = none) :
    (parseManifestJsonV1 j m0).2 = none ∧
    (∀ name, mapGet? (parseManifestJsonV1 j m0).1.Models name =
      (findLastKey V1Model.Name name (decodeV1Manifest ⟨[], []⟩ j).1.Models).map
        translateV1Model) ∧
    (∀ name, mapGet? (parseManifestJsonV1 j m0).1.Hosts name =
      (findLastKey V1Host.Name name (decodeV1Manifest ⟨[], []⟩ j).1.Hosts).map
        translateV1Host) := by
  have hok : (parseManifestJsonV1 j m0).2 = none := by
    rw [parseManifestJsonV1]
    cases hd : (decodeV1Manifest ⟨[], []⟩ j).2 with
    | some e => rw [hd] at h; simp at h
    | none => rfl
  refine ⟨hok, ?_, ?_⟩
  · intro name
    rw [parseManifestJsonV1_ok_models j _ hok,
      mapGet?_foldl_mapInsert V1Model.Name translateV1Model]
    cases findLastKey V1Model.Name name (decodeV1Manifest ⟨[], []⟩ j).1.Models with
    | some y => rfl
    | none => rfl
  · intro name
    rw [parseManifestJsonV1_ok_hosts j _ hok,
      mapGet?_foldl_mapInsert V1Host.Name translateV1Host]
    cases findLastKey V1Host.Name name (decodeV1Manifest ⟨[], []⟩ j).1.Hosts with
    | some y => rfl
    | none => rfl

/-- A v1-shape document with two hosts and two models sharing a name. -/
def c10Doc : Json :=
  .obj [("models", .arr
          [.obj [("name", .str "dup"), ("sourceModel", .str "first")],
           .obj [("name", .str "dup"), ("sourceModel", .str "second")]]),
        ("hosts", .arr
          [.obj [("name", .str "duph"), ("endpoint", .str "e1")],
           .obj [("name", .str "duph"), ("endpoint", .str "e2")]])]

theorem v1_duplicate_names_later_wins_witness :
    (parseManifestJsonV1 c10Doc zeroManifest).2 = none ∧
    mapGet? (parseManifestJsonV1 c10Doc zeroManifest).1.Models "dup" =
      some ⟨"dup", "second", "", ""⟩ ∧
    mapGet? (parseManifestJsonV1 c10Doc zeroManifest).1.Hosts "duph" =
      some ⟨"duph", "e2", "e2", [], []⟩ := by
  have H := v1_duplicate_names_later_wins c10Doc zeroManifest (by decide)
  exact ⟨H.1, (H.2.1 "dup").trans (by decide), (H.2.2 "duph").trans (by decide)⟩

/-! ## Claim C5 -/

/-- Spec-side description of the de-duplication: keep the first occurrence
of each value, scanning left to right. -/
def dedupFirst (l : List String) : List String :=
  l.foldl (fun acc v => if acc.contains v then acc else acc ++ [v]) []

/-- The new elements contributed by a de-duplicating scan of l against the
already-seen list acc, in scan order. -/
def dedupNew (acc : List String) : List String → List String
  | [] => []
  | v :: vs => if acc.contains v then dedupNew acc vs else v :: dedupNew (acc ++ [v]) vs

theorem dedup_foldl_eq_append (l : List String) :
    ∀ acc, l.foldl (fun acc v => if acc.contains v then acc else acc ++ [v]) acc =
      acc ++ dedupNew acc l := by
  induction l with
  | nil => intro acc; simp [dedupNew]
  | cons v vs ih =>
      intro acc
      rw [List.foldl_cons, dedupNew]
      by_cases hc : acc.contains v
      · simp only [if_pos hc]
        exact ih acc
      · simp only [if_neg hc]
        rw [ih (acc ++ [v]), List.append_assoc]
        rfl

theorem dedupNew_sublist (l : List String) :
    ∀ acc, List.Sublist (dedupNew acc l) l := by
  induction l with
  | nil => intro acc; simp [dedupNew]
  | cons v vs ih =>
      intro acc
      rw [dedupNew]
      by_cases hc : acc.contains v
      · simp only [if_pos hc]
        exact List.Sublist.cons v (ih acc)
      · simp only [if_neg hc]
        exact List.Sublist.cons₂ v (ih (acc ++ [v]))

theorem mem_dedup_foldl (l : List String) :
    ∀ acc v, v ∈ l.foldl (fun acc v => if acc.contains v then acc else acc ++ [v]) acc ↔
      v ∈ acc ∨ v ∈ l := by
  induction l with
  | nil => intro acc v; simp
  | cons a l ih =>
      intro acc v
      rw [List.foldl_cons]
      by_cases hc : acc.contains a
      · simp only [if_pos hc]
        rw [ih]
        constructor
        · rintro (h | h)
          · exact Or.inl h
          · exact Or.inr (List.mem_cons_of_mem _ h)
        · rintro (h | h)
          · exact Or.inl h
          · rcases List.mem_cons.mp h with h1 | h1
            · exact Or.inl (h1 ▸ (List.mem_of_elem_eq_true hc))
            · exact Or.inr h1
      · simp only [if_neg hc]
        rw [ih]
        simp only [List.mem_append, List.mem_singleton, List.mem_cons]
        tauto

theorem nodup_dedup_foldl (l : List String) :
    ∀ acc : List String, acc.Nodup →
      (l.foldl (fun acc v => if acc.contains v then acc else acc ++ [v]) acc).Nodup := by
  induction l with
  | nil => intro acc h; simpa using h
  | cons a l ih =>
      intro acc h
      rw [List.foldl_cons]
      by_cases hc : acc.contains a
      · simp only [if_pos hc]
        exact ih acc h
      · simp only [if_neg hc]
        refine ih (acc ++ [a]) ?_
        have ha : a ∉ acc := fun hmem => hc (List.elem_eq_true_of_mem hmem)
        simp [List.nodup_append, h, ha]

/-- addVars is the de-duplicating fold over the extracted list. -/
theorem addVars_eq_foldl (acc vars : List String) :
    addVars acc vars =
      vars.foldl (fun acc2 v => if acc2.contains v then acc2 else acc2 ++ [v]) acc := rfl

/-- Folding addVars over a list of values equals one de-duplicating fold
over the concatenation of the per-value extractions. -/
theorem foldl_addVars_flatten (f : String × String → List String) :
    ∀ (ps : List (String × String)) (acc : List String),
      ps.foldl (fun acc p => addVars acc (f p)) acc =
      ((ps.map f).flatten).foldl
        (fun acc2 v => if acc2.contains v then acc2 else acc2 ++ [v]) acc := by
  intro ps
  induction ps with
  | nil => intro acc; simp
  | cons p rest ih =>
      intro acc
      rw [List.foldl_cons, ih, List.map_cons, List.flatten_cons, List.foldl_append]
      rfl

/-- The combined extraction stream scanned by GetVariables: every header
value first, then every query-parameter value. -/
def hostVarStream (h : HostInfo) : List String :=
  ((h.Headers.map (fun p => extractVariables p.2)).flatten) ++
  ((h.QueryParameters.map (fun p => extractVariables p.2)).flatten)

/-- Claim C5: GetVariables returns the placeholder variables of every
header value and every query-parameter value, headers scanned before query
parameters, duplicates suppressed keeping first occurrences, and the
surviving occurrences keep their order in the combined scan (the result is
a sublist of the combined stream). -/
theorem getVariables_dedup_first_order (h : HostInfo) :
    h.GetVariables = dedupFirst (hostVarStream h) ∧
    h.GetVariables.Nodup ∧
    (∀ v, v ∈ h.GetVariables ↔ v ∈ hostVarStream h) ∧
    List.Sublist h.GetVariables (hostVarStream h) := by
  have heq : h.GetVariables = dedupFirst (hostVarStream h) := by
    rw [HostInfo.GetVariables, dedupFirst, hostVarStream]
    rw [foldl_addVars_flatten, foldl_addVars_flatten, List.foldl_append]
  refine ⟨heq, ?_, ?_, ?_⟩
  · rw [heq, dedupFirst]
    exact nodup_dedup_foldl _ [] List.nodup_nil
  · intro v
    rw [heq, dedupFirst, mem_dedup_foldl]
    simp
  · rw [heq, dedupFirst, dedup_foldl_eq_append]
    simpa using dedupNew_sublist (hostVarStream h) []

/-! ## Claim C6 -/

theorem hostVarsStep_untouched (acc : List (String × List String))
    (p : String × HostInfo) (name : String) (hne : p.2.Name ≠ name) :
    mapGet? (hostVarsStep acc p) name = mapGet? acc name := by
  rw [hostVarsStep]
  by_cases hl : p.2.GetVariables.length > 0
  · simp only [if_pos hl]
    exact mapGet?_mapInsert_ne _ _ (fun hc => hne hc.symm)
  · simp only [if_neg hl]

theorem getHV_fold_untouched (hosts : List (String × HostInfo)) :
    ∀ (acc : List (String × List String)) (name : String),
      name ∉ hosts.map (fun p => p.2.Name) →
      mapGet? (hosts.foldl hostVarsStep acc) name = mapGet? acc name := by
  induction hosts with
  | nil => intro acc name _; rfl
  | cons q rest ih =>
      intro acc name hname
      simp only [List.map_cons, List.mem_cons, not_or] at hname
      rw [List.foldl_cons, ih _ _ hname.2,
        hostVarsStep_untouched _ _ _ (fun hc => hname.1 hc.symm)]

theorem getHV_fold_some (hosts : List (String × HostInfo)) :
    ∀ (acc : List (String × List String)) (name : String) (v : List String),
      mapGet? (hosts.foldl hostVarsStep acc) name = some v →
      mapGet? acc name = some v ∨
      ∃ p ∈ hosts, p.2.Name = name ∧ p.2.GetVariables = v ∧ v ≠ [] := by
  induction hosts with
  | nil => intro acc name v h; exact Or.inl h
  | cons q rest ih =>
      intro acc name v h
      rw [List.foldl_cons] at h
      rcases ih _ _ _ h with h1 | h1
      · rw [hostVarsStep] at h1
        by_cases hl : q.2.GetVariables.length > 0
        · simp only [if_pos hl] at h1
          by_cases hn : name = q.2.Name
          · rw [hn, mapGet?_mapInsert_self] at h1
            have hv : q.2.GetVariables = v := Option.some.inj h1
            refine Or.inr ⟨q, List.mem_cons_self _ _, hn.symm, hv, ?_⟩
            rw [← hv]
            exact fun hc => by simp [hc] at hl
          · rw [mapGet?_mapInsert_ne _ _ hn] at h1
            exact Or.inl h1
        · simp only [if_neg hl] at h1
          exact Or.inl h1
      · rcases h1 with ⟨p, hp, hrest⟩
        exact Or.inr ⟨p, List.mem_cons_of_mem _ hp, hrest⟩

theorem getHV_fold_isSome (hosts : List (String × HostInfo)) :
    ∀ (acc : List (String × List String)) (name : String),
      (mapGet? acc name).isSome →
      (mapGet? (hosts.foldl hostVarsStep acc) name).isSome := by
  induction hosts with
  | nil => intro acc name h; exact h
  | cons q rest ih =>
      intro acc name h
      rw [List.foldl_cons]
      refine ih _ _ ?_
      rw [hostVarsStep]
      by_cases hl : q.2.GetVariables.length > 0
      · simp only [if_pos hl]
        exact mapGet?_isSome_mapInsert _ _ _ _ h
      · simp only [if_neg hl]
        exact h

theorem getHV_fold_mem_isSome (hosts : List (String × HostInfo)) :
    ∀ (acc : List (String × List String)) (name : String),
      (∃ p ∈ hosts, p.2.Name = name ∧ p.2.GetVariables ≠ []) →
      (mapGet? (hosts.foldl hostVarsStep acc) name).isSome := by
  induction hosts with
  | nil => intro acc name h; simp at h
  | cons q rest ih =>
      intro acc name h
      rw [List.foldl_cons]
      rcases h with ⟨p, hp, hname, hvars⟩
      rcases List.mem_cons.mp hp with h1 | h1
      · subst h1
        refine getHV_fold_isSome rest _ _ ?_
        rw [hostVarsStep]
        have hl : p.2.GetVariables.length > 0 := by
          cases hv : p.2.GetVariables with
          | nil => exact absurd hv hvars
          | cons a l => simp [hv]
        simp only [if_pos hl]
        rw [hname, mapGet?_mapInsert_self]
        rfl
      · exact ih _ _ ⟨p, h1, hname, hvars⟩

theorem getHV_fold_strong (hosts : List (String × HostInfo)) :
    ∀ acc : List (String × List String),
      (hosts.map (fun p => p.2.Name)).Nodup →
      ∀ p ∈ hosts,
        (p.2.GetVariables ≠ [] →
          mapGet? (hosts.foldl hostVarsStep acc) p.2.Name = some p.2.GetVariables) ∧
        (p.2.GetVariables = [] → mapGet? acc p.2.Name = none →
          mapGet? (hosts.foldl hostVarsStep acc) p.2.Name = none) := by
  induction hosts with
  | nil => intro acc _ p hp; simp at hp
  | cons q rest ih =>
      intro acc hnodup p hp
      simp only [List.map_cons, List.nodup_cons] at hnodup
      rw [List.foldl_cons]
      rcases List.mem_cons.mp hp with h1 | h1
      · subst h1
        constructor
        · intro hvars
          have hl : p.2.GetVariables.length > 0 := by
            cases hv : p.2.GetVariables with
            | nil => exact absurd hv hvars
            | cons a l => simp [hv]
          rw [getHV_fold_untouched rest _ _ hnodup.1, hostVarsStep]
          simp only [if_pos hl]
          exact mapGet?_mapInsert_self _ _ _
        · intro hvars hacc
          have hl : ¬ p.2.GetVariables.length > 0 := by simp [hvars]
          rw [getHV_fold_untouched rest _ _ hnodup.1, hostVarsStep]
          simp only [if_neg hl]
          exact hacc
      · have hne : q.2.Name ≠ p.2.Name := by
          intro hc
          exact hnodup.1 (hc ▸ List.mem_map.mpr ⟨p, h1, rfl⟩)
        have hstep := hostVarsStep_untouched acc q p.2.Name hne
        rcases ih (hostVarsStep acc q) hnodup.2 p h1 with ⟨hs, hn⟩
        exact ⟨hs, fun hvars hacc => hn hvars (hstep.trans hacc)⟩

theorem decodeObjMap_keysNodup {α : Type} (zero : α)
    (decElem : α → Json → α × Option ManifestError) (tn : String)
    (cur : List (String × α)) (j : Json)
    (h : (cur.map Prod.fst).Nodup) :
    (((decodeObjMap zero decElem tn cur j).1).map Prod.fst).Nodup := by
  cases j with
  | obj fields =>
      rw [decodeObjMap]
      have main : ∀ (fs : List (String × Json)) (acc : List (String × α) × Option ManifestError),
          (acc.1.map Prod.fst).Nodup →
          (((fs.foldl (fun acc kv =>
              let r := decElem zero kv.2
              (mapInsert acc.1 kv.1 r.1, errFirst acc.2 r.2)) acc)).1.map Prod.fst).Nodup := by
        intro fs
        induction fs with
        | nil => intro acc hacc; exact hacc
        | cons kv rest ih =>
            intro acc hacc
            rw [List.foldl_cons]
            exact ih _ (keysNodup_mapInsert _ _ hacc)
      exact main fields (cur, none) h
  | null => rw [decodeObjMap]; simp
  | bool b => exact h
  | num n => exact h
  | str s => exact h
  | arr elems => exact h

theorem decodeManifest_hosts_keysNodup (j : Json) (cur : HypermodeManifest)
    (h : (cur.Hosts.map Prod.fst).Nodup) :
    ((decodeManifest cur j).1.Hosts.map Prod.fst).Nodup := by
  cases j with
  | obj fields =>
      rw [decodeManifest]
      have main : ∀ (fs : List (String × Json))
          (acc : HypermodeManifest × Option ManifestError),
          (acc.1.Hosts.map Prod.fst).Nodup →
          (((fs.foldl (fun acc kv =>
              if kv.1 = "models" then
                let r := decodeObjMap zeroModelInfo decodeModelInfo
                  "map[string]manifest.ModelInfo" acc.1.Models kv.2
                ({ acc.1 with Models := r.1 }, errFirst acc.2 r.2)
              else if kv.1 = "hosts" then
                let r := decodeObjMap zeroHostInfo decodeHostInfo
                  "map[string]manifest.HostInfo" acc.1.Hosts kv.2
                ({ acc.1 with Hosts := r.1 }, errFirst acc.2 r.2)
              else if kv.1 = "collections" then
                let r := decodeObjMap zeroCollectionInfo decodeCollectionInfo
                  "map[string]manifest.CollectionInfo" acc.1.Collections kv.2
                ({ acc.1 with Collections := r.1 }, errFirst acc.2 r.2)
              else acc) acc)).1.Hosts.map Prod.fst).Nodup := by
        intro fs
        induction fs with
        | nil => intro acc hacc; exact hacc
        | cons kv rest ih =>
            intro acc hacc
            rw [List.foldl_cons]
            refine ih _ ?_
            by_cases h1 : kv.1 = "models"
            · simp only [if_pos h1]; exact hacc
            · by_cases h2 : kv.1 = "hosts"
              · simp only [if_neg h1, if_pos h2]
                exact decodeObjMap_keysNodup _ _ _ _ _ hacc
              · by_cases h3 : kv.1 = "collections"
                · simp only [if_neg h1, if_neg h2, if_pos h3]; exact hacc
                · simp only [if_neg h1, if_neg h2, if_neg h3]; exact hacc
      exact main fields (cur, none) h
  | null => exact h
  | bool b => exact h
  | num n => exact h
  | str s => exact h
  | arr elems => exact h

theorem foldl_mapInsert_keysNodup {α β : Type} (key : β → String) (val : β → α) :
    ∀ (xs : List β) (acc : List (String × α)),
      (acc.map Prod.fst).Nodup →
      ((xs.foldl (fun m x => mapInsert m (key x) (val x)) acc).map Prod.fst).Nodup := by
  intro xs
  induction xs with
  | nil => intro acc h; exact h
  | cons x rest ih =>
      intro acc h
      rw [List.foldl_cons]
      exact ih _ (keysNodup_mapInsert _ _ h)

/-- The Name attributes of the hosts of any successfully parsed manifest
are pairwise distinct (keys are distinct and names equal keys). -/
theorem readManifest_ok_hostNames_nodup (j : Json) (m' : HypermodeManifest)
    (h : readManifest (.wellFormed j) = (m', none)) :
    (m'.Hosts.map (fun p => p.2.Name)).Nodup := by
  have hkeys : (m'.Hosts.map Prod.fst).Nodup := by
    cases h1 : (parseManifestJson j zeroManifest).2 with
    | none =>
        have he := (readManifest_eq_of_current_ok j h1).symm.trans h
        have hm : m' = (parseManifestJson j zeroManifest).1 := (congrArg Prod.fst he).symm
        subst hm
        rw [parseManifestJson_ok_hosts j _ h1]
        rw [List.map_map]
        have : ((Prod.fst ∘ fun (p : String × HostInfo) =>
            (p.1, { p.2 with Name := p.1 }))) = Prod.fst := rfl
        rw [this]
        exact decodeManifest_hosts_keysNodup j zeroManifest (by simp [zeroManifest])
    | some e =>
        cases h2 : (parseManifestJsonV1 j (parseManifestJson j zeroManifest).1).2 with
        | none =>
            have he := (readManifest_eq_of_fallback_ok j h1 h2).symm.trans h
            have hm : m' = (parseManifestJsonV1 j (parseManifestJson j zeroManifest).1).1 :=
              (congrArg Prod.fst he).symm
            subst hm
            rw [parseManifestJsonV1_ok_hosts j _ h2]
            exact foldl_mapInsert_keysNodup V1Host.Name translateV1Host _ [] (by simp)
        | some e2 =>
            have he := (readManifest_eq_of_both_fail j h1 h2).symm.trans h
            have : some (ManifestError.parseWrap e2) = (none : Option ManifestError) :=
              congrArg Prod.snd he
            simp at this
  have hnames : ∀ p ∈ m'.Hosts, p.2.Name = p.1 := by
    intro p hp
    rcases readManifest_ok_names_eq_keys j m' h with ⟨_, hh⟩
    exact hh p.1 p.2 hp
  have : m'.Hosts.map (fun p => p.2.Name) = m'.Hosts.map Prod.fst :=
    List.map_congr_left hnames
  rw [this]
  exact hkeys

/-- Claim C6: GetHostVariables maps a host's name to its variable list
exactly when that list is non-empty: a stored value is never an empty list;
a name is present exactly when some host carries it with a non-empty list;
and, whenever the hosts' Name attributes are pairwise distinct (which holds
for every manifest ReadManifest returns, last conjunct), a host with a
non-empty list is present under its Name with its full list while a host
with an empty list is entirely absent. -/
theorem getHostVariables_nonempty_only :
    (∀ (m : HypermodeManifest) (name : String) (vars : List String),
      mapGet? m.GetHostVariables name = some vars → vars ≠ []) ∧
    (∀ (m : HypermodeManifest) (name : String),
      (mapGet? m.GetHostVariables name).isSome ↔
        ∃ p ∈ m.Hosts, p.2.Name = name ∧ p.2.GetVariables ≠ []) ∧
    (∀ m : HypermodeManifest, (m.Hosts.map (fun p => p.2.Name)).Nodup →
      ∀ p ∈ m.Hosts,
        (p.2.GetVariables ≠ [] →
          mapGet? m.GetHostVariables p.2.Name = some p.2.GetVariables) ∧
        (p.2.GetVariables = [] → mapGet? m.GetHostVariables p.2.Name = none)) ∧
    (∀ (j : Json) (m' : HypermodeManifest), readManifest (.wellFormed j) = (m', none) →
      (m'.Hosts.map (fun p => p.2.Name)).Nodup) := by
  refine ⟨?_, ?_, ?_, readManifest_ok_hostNames_nodup⟩
  · intro m name vars h
    rcases getHV_fold_some m.Hosts [] name vars h with h1 | h1
    · simp [mapGet?] at h1
    · exact h1.choose_spec.2.2.2
  · intro m name
    constructor
    · intro h
      rcases Option.isSome_iff_exists.mp h with ⟨vars, hv⟩
      rcases getHV_fold_some m.Hosts [] name vars hv with h1 | h1
      · simp [mapGet?] at h1
      · rcases h1 with ⟨p, hp, hname, hvars, hne⟩
        exact ⟨p, hp, hname, hvars ▸ hne⟩
    · exact getHV_fold_mem_isSome m.Hosts [] name
  · intro m hnodup p hp
    rcases getHV_fold_strong m.Hosts [] hnodup p hp with ⟨hs, hn⟩
    exact ⟨hs, fun hvars => hn hvars rfl⟩

/-- A manifest with one placeholder-bearing host and one placeholder-free
host, with distinct names. -/
def c6Manifest : HypermodeManifest :=
  ⟨2, [],
   [("a", ⟨"a", "", "", [("h", "\x7b\x7bV\x7d\x7d")], []⟩),
    ("b", ⟨"b", "", "", [], []⟩)], []⟩

theorem getHostVariables_nonempty_only_witness :
    mapGet? c6Manifest.GetHostVariables "a" = some ["V"] ∧
    mapGet? c6Manifest.GetHostVariables "b" = none ∧
    (["V"] : List String) ≠ [] ∧
    ((readManifest (.wellFormed c4Doc)).1.Hosts.map (fun p => p.2.Name)).Nodup := by
  have H := getHostVariables_nonempty_only
  have hstrongA := (H.2.2.1 c6Manifest (by decide)
    ("a", ⟨"a", "", "", [("h", "\x7b\x7bV\x7d\x7d")], []⟩) (by decide)).1 (by decide)
  have hstrongB := (H.2.2.1 c6Manifest (by decide)
    ("b", ⟨"b", "", "", [], []⟩) (by decide)).2 (by decide)
  refine ⟨hstrongA.trans (by decide), hstrongB, by decide, ?_⟩
  exact H.2.2.2 c4Doc (readManifest (.wellFormed c4Doc)).1 (by decide)

/-! ## Claim C7 -/

/-- Counterexample to claim C7: two differently-split attribute sets whose
delimiter-joined concatenations coincide produce IDENTICAL hashes, because
Hash concatenates the attributes with an unescaped pipe before hashing.
The models named a|b (source c) and a (source b|c) both hash the string
a|b|c|| and therefore collide. -/
theorem hash_delimiter_collision_cex :
    (⟨"a|b", "c", "", ""⟩ : ModelInfo) ≠ ⟨"a", "b|c", "", ""⟩ ∧
    modelHashData ⟨"a|b", "c", "", ""⟩ = modelHashData ⟨"a", "b|c", "", ""⟩ ∧
    ModelInfo.Hash ⟨"a|b", "c", "", ""⟩ = ModelInfo.Hash ⟨"a", "b|c", "", ""⟩ := by
  refine ⟨by decide, by decide, ?_⟩
  show sha256hex (modelHashData _) = sha256hex (modelHashData _)
  exact congrArg sha256hex (by decide)

/-- Claim C7 (amended): Hash is a pure deterministic function of the
delimiter-joined attribute concatenation: each Hash equals SHA-256 of the
joined string, so equal attribute sets always hash alike, and distinct
attribute sets whose joined concatenations coincide (delimiter injection)
hash alike as well — a known limitation rather than distinguishability. -/
theorem hash_factors_through_joined :
    (∀ m : ModelInfo, m.Hash = sha256hex (modelHashData m)) ∧
    (∀ h : HostInfo, h.Hash = sha256hex (hostHashData h)) ∧
    (∀ m1 m2 : ModelInfo, modelHashData m1 = modelHashData m2 → m1.Hash = m2.Hash) ∧
    (∀ h1 h2 : HostInfo, hostHashData h1 = hostHashData h2 → h1.Hash = h2.Hash) := by
  refine ⟨fun m => rfl, fun h => rfl, ?_, ?_⟩
  · intro m1 m2 h; exact congrArg sha256hex h
  · intro h1 h2 h; exact congrArg sha256hex h

theorem hash_factors_through_joined_witness :
    (modelHashData ⟨"x", "y|", "", ""⟩ = modelHashData ⟨"x|y", "", "", ""⟩ ∧
      ModelInfo.Hash ⟨"x", "y|", "", ""⟩ = ModelInfo.Hash ⟨"x|y", "", "", ""⟩) ∧
    (hostHashData ⟨"n|", "e", "", [], []⟩ = hostHashData ⟨"n", "|e", "", [], []⟩ ∧
      HostInfo.Hash ⟨"n|", "e", "", [], []⟩ = HostInfo.Hash ⟨"n", "|e", "", [], []⟩) := by
  refine ⟨⟨by decide, hash_factors_through_joined.2.2.1 _ _ (by decide)⟩,
          ⟨by decide, hash_factors_through_joined.2.2.2 _ _ (by decide)⟩⟩

/-! ## Claim C9 -/

/-- A document whose models field defeats both decode paths while its hosts
field decodes under the current shape. -/
def c9Doc : Json :=
  .obj [("models", .num 3), ("hosts", .obj [("h", .obj [("endpoint", .str "x")])])]

/-- Counterexample to claim C9: ReadManifest can return an error together
with a partially populated manifest: on c9Doc both decodes fail, yet the
returned manifest still carries the host decoded by the failed
current-shape attempt, so the error case is not paired with an empty
manifest value. -/
theorem error_with_partial_manifest_cex :
    (readManifest (.wellFormed c9Doc)).2.isSome ∧
    (readManifest (.wellFormed c9Doc)).1.Hosts = [("h", ⟨"", "x", "", [], []⟩)] ∧
    (readManifest (.wellFormed c9Doc)).1 ≠ zeroManifest := by decide

theorem parseManifestJson_err_value (j : Json) (m : HypermodeManifest) (e : ManifestError)
    (h : (parseManifestJson j m).2 = some e) :
    (parseManifestJson j m).1 = (decodeManifest m j).1 := by
  rw [parseManifestJson] at h ⊢
  cases hd : (decodeManifest m j).2 with
  | some e2 => rfl
  | none => rw [hd] at h; simp at h

theorem parseManifestJsonV1_err_value (j : Json) (m : HypermodeManifest) (e : ManifestError)
    (h : (parseManifestJsonV1 j m).2 = some e) :
    (parseManifestJsonV1 j m).1 = m := by
  rw [parseManifestJsonV1] at h ⊢
  cases hd : (decodeV1Manifest ⟨[], []⟩ j).2 with
  | some e2 => rfl
  | none => rw [hd] at h; simp at h

/-- Claim C9 (amended): ReadManifest does not pair an error with a
guaranteed-empty manifest.  When preprocessing fails the zero manifest
accompanies the error; when both decodes fail, the manifest returned
alongside the error is exactly what the failed current-shape decode left
behind (possibly partially populated), since the failed v1 attempt leaves
it untouched. -/
theorem error_manifest_contents :
    readManifest .malformed = (zeroManifest, some .malformedInput) ∧
    (∀ j : Json, (readManifest (.wellFormed j)).2 ≠ none →
      (readManifest (.wellFormed j)).1 = (decodeManifest zeroManifest j).1) := by
  refine ⟨rfl, ?_⟩
  intro j h
  cases h1 : (parseManifestJson j zeroManifest).2 with
  | none =>
      have he := readManifest_eq_of_current_ok j h1
      rw [he] at h
      simp at h
  | some e =>
      cases h2 : (parseManifestJsonV1 j (parseManifestJson j zeroManifest).1).2 with
      | none =>
          have he := readManifest_eq_of_fallback_ok j h1 h2
          rw [he] at h
          simp at h
      | some e2 =>
          have he := readManifest_eq_of_both_fail j h1 h2
          rw [he]
          show (parseManifestJsonV1 j (parseManifestJson j zeroManifest).1).1 = _
          rw [parseManifestJsonV1_err_value j _ e2 h2,
            parseManifestJson_err_value j _ e h1]

theorem error_manifest_contents_witness :
    (readManifest (.wellFormed c9Doc)).1 = (decodeManifest zeroManifest c9Doc).1 :=
  error_manifest_contents.2 c9Doc (by decide)

/-! ## Lemmas about the placeholder matcher -/

/-- A plain variable-name character: not whitespace and none of the
delimiter characters of the placeholder grammar. -/
def isNameChar (c : Char) : Bool :=
  !(isWs c) && !(c = '\x7b') && !(c = '\x7d') && !(c = '(') && !(c = ')') && !(c = ':')

/-- A character the simple lazy group can absorb without closing: not
whitespace (hence not newline) and not a closing brace. -/
def isSimpleChar (c : Char) : Bool := !(isWs c) && !(c = '\x7d')

theorem isNameChar_spec {c : Char} (h : isNameChar c) :
    isWs c = false ∧ c ≠ '\x7b' ∧ c ≠ '\x7d' ∧ c ≠ '(' ∧ c ≠ ')' ∧ c ≠ ':' := by
  rw [isNameChar] at h
  simp only [Bool.and_eq_true, Bool.not_eq_true', decide_eq_false_iff_not] at h
  exact ⟨h.1.1.1.1.1, h.1.1.1.1.2, h.1.1.1.2, h.1.1.2, h.1.2, h.2⟩

theorem isSimpleChar_spec {c : Char} (h : isSimpleChar c) :
    isWs c = false ∧ c ≠ '\x7d' := by
  rw [isSimpleChar] at h
  simp only [Bool.and_eq_true, Bool.not_eq_true', decide_eq_false_iff_not] at h
  exact ⟨h.1, h.2⟩

theorem isSimpleChar_of_isNameChar {c : Char} (h : isNameChar c) : isSimpleChar c := by
  rcases isNameChar_spec h with ⟨h1, _, h3, _, _, _⟩
  rw [isSimpleChar]
  simp only [Bool.and_eq_true, Bool.not_eq_true', decide_eq_false_iff_not]
  exact ⟨h1, h3⟩

theorem not_ws_of_isSimpleChar {c : Char} (h : isSimpleChar c) : isWs c = false :=
  (isSimpleChar_spec h).1

theorem not_newline_of_isSimpleChar {c : Char} (h : isSimpleChar c) : ¬ c = '\n' := by
  intro hc
  subst hc
  exact absurd (not_ws_of_isSimpleChar h) (by decide)

theorem countWs_cons_not_ws {c : Char} (cs : List Char) (h : isWs c = false) :
    countWs (c :: cs) = 0 := by
  rw [countWs, h]
  rfl

theorem matchCloseBraces_braces (rest : List Char) :
    matchCloseBraces ('\x7d' :: '\x7d' :: rest) = some 0 := by
  rw [matchCloseBraces]
  rfl

theorem matchCloseBraces_not_brace {c : Char} (cs : List Char)
    (hws : isWs c = false) (hb : ¬ c = '\x7d') :
    matchCloseBraces (c :: cs) = none := by
  rw [matchCloseBraces]
  rw [countWs_cons_not_ws cs hws]
  rw [List.drop_zero, List.take_succ_cons]
  rw [if_neg]
  intro h
  injection h with h1 _
  exact hb h1

/-- The simple lazy group consumes exactly a plain group followed by the
closing braces. -/
theorem grabSimple_group (g : List Char) :
    ∀ rest, g ≠ [] → (∀ c ∈ g, isSimpleChar c) →
      grabSimple (g ++ '\x7d' :: '\x7d' :: rest) = some (g, g.length + 2) := by
  induction g with
  | nil => intro rest h _; exact absurd rfl h
  | cons c g' ih =>
      intro rest _ hall
      have hc : isSimpleChar c := hall c (List.mem_cons_self _ _)
      rw [List.cons_append, grabSimple]
      rw [if_neg (not_newline_of_isSimpleChar hc)]
      cases g' with
      | nil =>
          rw [List.nil_append, matchCloseBraces_braces]
          rfl
      | cons d g'' =>
          have hd : isSimpleChar d := hall d (List.mem_cons_of_mem _ (List.mem_cons_self _ _))
          have hdb : ¬ d = '\x7d' := (isSimpleChar_spec hd).2
          rw [List.cons_append, matchCloseBraces_not_brace _ (not_ws_of_isSimpleChar hd) hdb]
          rw [← List.cons_append, ih rest (by simp) (fun x hx => hall x (List.mem_cons_of_mem _ hx))]
          rfl

theorem closeAfterParen_not_paren {d : Char} (cs : List Char) (hd : ¬ d = ')') :
    closeAfterParen (d :: cs) = none := by
  rw [closeAfterParen.eq_def]
  split
  · rename_i heq
    injection heq with h1 _
    exact absurd h1 hd
  · rfl

/-- The second lazy group of the base64 branch consumes exactly a plain
group followed by the closing paren and braces. -/
theorem grabPairSecond_group (g : List Char) :
    ∀ rest, g ≠ [] → (∀ c ∈ g, isNameChar c) →
      grabPairSecond (g ++ ')' :: '\x7d' :: '\x7d' :: rest) = some (g, g.length + 3) := by
  induction g with
  | nil => intro rest h _; exact absurd rfl h
  | cons c g' ih =>
      intro rest _ hall
      have hc : isNameChar c := hall c (List.mem_cons_self _ _)
      rw [List.cons_append, grabPairSecond]
      rw [if_neg (not_newline_of_isSimpleChar (isSimpleChar_of_isNameChar hc))]
      cases g' with
      | nil =>
          rw [List.nil_append]
          rw [show closeAfterParen (')' :: '\x7d' :: '\x7d' :: rest) = some 3 by
            rw [closeAfterParen, matchCloseBraces_braces]]
          rfl
      | cons d g'' =>
          have hd : isNameChar d := hall d (List.mem_cons_of_mem _ (List.mem_cons_self _ _))
          have hdp : ¬ d = ')' := (isNameChar_spec hd).2.2.2.2.1
          rw [List.cons_append, closeAfterParen_not_paren _ hdp]
          rw [← List.cons_append, ih rest (by simp) (fun x hx => hall x (List.mem_cons_of_mem _ hx))]
          rfl

theorem pairSecondAfterColon_not_colon {d : Char} (cs : List Char) (hd : ¬ d = ':') :
    pairSecondAfterColon (d :: cs) = none := by
  rw [pairSecondAfterColon.eq_def]
  split
  · rename_i heq
    injection heq with h1 _
    exact absurd h1 hd
  · rfl

/-- The base64 branch's pair of lazy groups consumes exactly a plain first
group, the colon, a plain second group, the closing paren and the braces. -/
theorem grabPairFirst_group (A : List Char) :
    ∀ (B rest : List Char), A ≠ [] → B ≠ [] →
      (∀ c ∈ A, isNameChar c) → (∀ c ∈ B, isNameChar c) →
      grabPairFirst (A ++ ':' :: (B ++ ')' :: '\x7d' :: '\x7d' :: rest)) =
        some (A, B, A.length + B.length + 4) := by
  induction A with
  | nil => intro B rest h _ _ _; exact absurd rfl h
  | cons c A' ih =>
      intro B rest _ hB hallA hallB
      have hc : isNameChar c := hallA c (List.mem_cons_self _ _)
      rw [List.cons_append, grabPairFirst]
      rw [if_neg (not_newline_of_isSimpleChar (isSimpleChar_of_isNameChar hc))]
      cases A' with
      | nil =>
          rw [List.nil_append]
          rw [show pairSecondAfterColon (':' :: (B ++ ')' :: '\x7d' :: '\x7d' :: rest)) =
              some (B, B.length + 4) by
            rw [pairSecondAfterColon, grabPairSecond_group B rest hB hallB]
            simp only [Option.some.injEq, Prod.mk.injEq]
            exact ⟨trivial, by omega⟩]
          simp only [Option.some.injEq, Prod.mk.injEq, List.length_cons, List.length_nil]
          exact ⟨trivial, trivial, by omega⟩
      | cons d A'' =>
          have hd := hallA d (List.mem_cons_of_mem _ (List.mem_cons_self _ _))
          rw [List.cons_append, pairSecondAfterColon_not_colon _ (isNameChar_spec hd).2.2.2.2.2]
          rw [← List.cons_append,
            ih B rest (by simp) hB (fun x hx => hallA x (List.mem_cons_of_mem _ hx)) hallB]
          simp only [Option.some.injEq, Prod.mk.injEq, List.length_cons]
          exact ⟨trivial, trivial, by omega⟩

/-- On a plain name followed by the closing braces, the base64 alternative
cannot fire: the seven-character head cannot occur (a name character is
never an open paren and a closing brace never occurs in the head). -/
theorem take7_ne_base64Head (name : List Char) (tail : List Char)
    (hall : ∀ c ∈ name, isNameChar c) :
    (name ++ '\x7d' :: '\x7d' :: tail).take 7 ≠ base64Head := by
  intro heq
  by_cases h7 : 7 ≤ name.length
  · have ht : (name ++ '\x7d' :: '\x7d' :: tail).take 7 = name.take 7 :=
      List.take_append_of_le_length h7
    rw [ht] at heq
    have hmem : '(' ∈ name.take 7 := by rw [heq]; decide
    have : '(' ∈ name := List.take_subset _ _ hmem
    exact absurd rfl (isNameChar_spec (hall _ this)).2.2.2.1
  · push_neg at h7
    have hget : (name ++ '\x7d' :: '\x7d' :: tail).get? name.length = some '\x7d' := by
      rw [List.get?_append_right (Nat.le_refl _)]
      simp
    have hget2 : ((name ++ '\x7d' :: '\x7d' :: tail).take 7).get? name.length =
        some '\x7d' := by
      rw [List.get?_take h7]
      exact hget
    rw [heq] at hget2
    have : '\x7d' ∈ base64Head := List.get?_mem hget2
    revert this
    decide

/-- Anchored match on a simple placeholder: two opening braces, a plain
non-empty name, two closing braces. -/
theorem matchPlaceholder_simple (name : List Char) (tail : List Char)
    (hne : name ≠ []) (hall : ∀ c ∈ name, isNameChar c) :
    matchPlaceholder ('\x7b' :: '\x7b' :: (name ++ '\x7d' :: '\x7d' :: tail)) =
      some ([String.mk name], name.length + 4) := by
  rw [matchPlaceholder]
  rw [if_pos (by rw [List.take_succ_cons, List.take_succ_cons, List.take_zero])]
  have hdrop : ('\x7b' :: '\x7b' :: (name ++ '\x7d' :: '\x7d' :: tail)).drop 2 =
      name ++ '\x7d' :: '\x7d' :: tail := rfl
  rw [hdrop]
  obtain ⟨c, name', rfl⟩ := List.exists_cons_of_ne_nil hne
  have hc : isNameChar c := hall c (List.mem_cons_self _ _)
  have hw : countWs ((c :: name') ++ '\x7d' :: '\x7d' :: tail) = 0 := by
    rw [List.cons_append]
    exact countWs_cons_not_ws _ (isNameChar_spec hc).1
  rw [hw, tryWs]
  rw [List.drop_zero]
  rw [show tryAltAt ((c :: name') ++ '\x7d' :: '\x7d' :: tail) =
      some ([String.mk (c :: name')], (c :: name').length + 2) from ?_]
  · simp only [Nat.zero_add, Option.some.injEq, Prod.mk.injEq]
  · rw [tryAltAt, tryBase64At, if_neg (take7_ne_base64Head _ tail hall)]
    rw [trySimpleAt, grabSimple_group _ tail (by simp)
      (fun x hx => isSimpleChar_of_isNameChar (hall x hx))]

/-- Anchored match on a base64-pair placeholder with the paren spelling. -/
theorem matchPlaceholder_base64 (A B : List Char) (tail : List Char)
    (hA : A ≠ []) (hB : B ≠ [])
    (hallA : ∀ c ∈ A, isNameChar c) (hallB : ∀ c ∈ B, isNameChar c) :
    matchPlaceholder ('\x7b' :: '\x7b' ::
        (base64Head ++ (A ++ ':' :: (B ++ ')' :: '\x7d' :: '\x7d' :: tail)))) =
      some ([String.mk A, String.mk B], A.length + B.length + 13) := by
  rw [matchPlaceholder]
  rw [if_pos (by rw [List.take_succ_cons, List.take_succ_cons, List.take_zero])]
  have hdrop : ('\x7b' :: '\x7b' ::
      (base64Head ++ (A ++ ':' :: (B ++ ')' :: '\x7d' :: '\x7d' :: tail)))).drop 2 =
      base64Head ++ (A ++ ':' :: (B ++ ')' :: '\x7d' :: '\x7d' :: tail)) := rfl
  rw [hdrop]
  have hw : countWs (base64Head ++ (A ++ ':' :: (B ++ ')' :: '\x7d' :: '\x7d' :: tail))) = 0 := by
    rw [base64Head, List.cons_append]
    exact countWs_cons_not_ws _ (by decide)
  rw [hw, tryWs, List.drop_zero]
  rw [show tryAltAt (base64Head ++ (A ++ ':' :: (B ++ ')' :: '\x7d' :: '\x7d' :: tail))) =
      some ([String.mk A, String.mk B], 7 + (A.length + B.length + 4)) from ?_]
  · simp only [Nat.zero_add, Option.some.injEq, Prod.mk.injEq]
    exact ⟨trivial, by omega⟩
  · rw [tryAltAt, tryBase64At]
    rw [if_pos (by
      rw [show (7 : Nat) = base64Head.length from rfl]
      exact List.take_left base64Head _)]
    rw [show (base64Head ++ (A ++ ':' :: (B ++ ')' :: '\x7d' :: '\x7d' :: tail))).drop 7 =
        A ++ ':' :: (B ++ ')' :: '\x7d' :: '\x7d' :: tail) from
      by rw [show (7 : Nat) = base64Head.length from rfl]; exact List.drop_left base64Head _]
    rw [grabPairFirst_group A B tail hA hB hallA hallB]

/-- The literal inner text of the colon spelling: base64, colon, open
paren. -/
def base64ColonHead : List Char := ['b', 'a', 's', 'e', '6', '4', ':', '(']

/-- Anchored match on the colon spelling of the base64 pair: the base64
branch cannot fire (its head requires an open paren right after base64), so
the simple branch captures the whole literal inner text. -/
theorem matchPlaceholder_base64_colon (A B : List Char) (tail : List Char)
    (hA : A ≠ []) (hB : B ≠ [])
    (hallA : ∀ c ∈ A, isNameChar c) (hallB : ∀ c ∈ B, isNameChar c) :
    matchPlaceholder ('\x7b' :: '\x7b' ::
        ((base64ColonHead ++ (A ++ ':' :: (B ++ [')']))) ++ '\x7d' :: '\x7d' :: tail)) =
      some ([String.mk (base64ColonHead ++ (A ++ ':' :: (B ++ [')'])))],
        (base64ColonHead ++ (A ++ ':' :: (B ++ [')']))).length + 4) := by
  have hsimple : ∀ c ∈ base64ColonHead ++ (A ++ ':' :: (B ++ [')'])), isSimpleChar c := by
    have hhead : ∀ c ∈ base64ColonHead, isSimpleChar c := by decide
    intro c hcm
    rcases List.mem_append.mp hcm with h | h
    · exact hhead c h
    · rcases List.mem_append.mp h with h2 | h2
      · exact isSimpleChar_of_isNameChar (hallA c h2)
      · rcases List.mem_cons.mp h2 with h3 | h3
        · subst h3; decide
        · rcases List.mem_append.mp h3 with h4 | h4
          · exact isSimpleChar_of_isNameChar (hallB c h4)
          · rcases List.mem_singleton.mp h4 with rfl
            decide
  rw [matchPlaceholder]
  rw [if_pos (by rw [List.take_succ_cons, List.take_succ_cons, List.take_zero])]
  have hdrop : ('\x7b' :: '\x7b' ::
      ((base64ColonHead ++ (A ++ ':' :: (B ++ [')']))) ++ '\x7d' :: '\x7d' :: tail)).drop 2 =
      (base64ColonHead ++ (A ++ ':' :: (B ++ [')']))) ++ '\x7d' :: '\x7d' :: tail := rfl
  rw [hdrop]
  have hw : countWs ((base64ColonHead ++ (A ++ ':' :: (B ++ [')']))) ++ '\x7d' :: '\x7d' :: tail) = 0 := by
    rw [base64ColonHead, List.cons_append, List.cons_append]
    exact countWs_cons_not_ws _ (by decide)
  rw [hw, tryWs, List.drop_zero]
  rw [show tryAltAt ((base64ColonHead ++ (A ++ ':' :: (B ++ [')']))) ++ '\x7d' :: '\x7d' :: tail) =
      some ([String.mk (base64ColonHead ++ (A ++ ':' :: (B ++ [')'])))],
        (base64ColonHead ++ (A ++ ':' :: (B ++ [')']))).length + 2) from ?_]
  · simp only [Nat.zero_add, Option.some.injEq, Prod.mk.injEq]
  · rw [tryAltAt, tryBase64At]
    rw [if_neg (by
      rw [List.append_assoc, List.take_append_of_le_length (by decide)]
      decide)]
    rw [trySimpleAt, grabSimple_group _ tail (by simp [base64ColonHead]) hsimple]

theorem matchPlaceholder_nil : matchPlaceholder [] = none := rfl

theorem matchPlaceholder_pos {cs : List Char} {r : List String × Nat}
    (h : matchPlaceholder cs = some r) : 1 ≤ r.2 := by
  rw [matchPlaceholder] at h
  by_cases hc : cs.take 2 = ['\x7b', '\x7b']
  · rw [if_pos hc] at h
    cases htw : tryWs (countWs (cs.drop 2)) (cs.drop 2) with
    | none => rw [htw] at h; exact absurd h (by simp)
    | some r2 =>
        rw [htw] at h
        have := Option.some.inj h
        rw [← this]
        omega
  · rw [if_neg hc] at h
    exact absurd h (by simp)

theorem matchPlaceholder_not_brace {c : Char} (cs : List Char) (hc : c ≠ '\x7b') :
    matchPlaceholder (c :: cs) = none := by
  rw [matchPlaceholder, if_neg]
  rw [List.take_succ_cons]
  intro h
  injection h with h1 _
  exact hc h1

theorem extractLoopF_nil : ∀ fuel, extractLoopF fuel [] = [] := by
  intro fuel
  cases fuel with
  | zero => rfl
  | succ f => rfl

/-- Fuel irrelevance: any fuel at least the string length computes the same
extraction. -/
theorem extractLoopF_fuel (fuel1 : Nat) :
    ∀ (cs : List Char) (fuel2 : Nat), cs.length ≤ fuel1 → cs.length ≤ fuel2 →
      extractLoopF fuel1 cs = extractLoopF fuel2 cs := by
  induction fuel1 with
  | zero =>
      intro cs fuel2 h1 _
      have : cs = [] := List.eq_nil_of_length_eq_zero (Nat.le_zero.mp h1)
      subst this
      rw [extractLoopF_nil, extractLoopF_nil]
  | succ f ih =>
      intro cs fuel2 h1 h2
      cases cs with
      | nil => rw [extractLoopF_nil, extractLoopF_nil]
      | cons c cs' =>
          cases fuel2 with
          | zero => simp at h2
          | succ f2 =>
              simp only [extractLoopF]
              cases hm : matchPlaceholder (c :: cs') with
              | some r =>
                  simp only []
                  have hpos := matchPlaceholder_pos hm
                  have hlen : ((c :: cs').drop r.2).length ≤ f := by
                    rw [List.length_drop]
                    simp only [List.length_cons] at h1 ⊢
                    omega
                  have hlen2 : ((c :: cs').drop r.2).length ≤ f2 := by
                    rw [List.length_drop]
                    simp only [List.length_cons] at h2 ⊢
                    omega
                  rw [ih _ _ hlen hlen2]
              | none =>
                  simp only []
                  have hlen : cs'.length ≤ f := by
                    simp only [List.length_cons] at h1
                    omega
                  have hlen2 : cs'.length ≤ f2 := by
                    simp only [List.length_cons] at h2
                    omega
                  exact ih _ _ hlen hlen2

theorem extractVariablesL_nil : extractVariablesL [] = [] := rfl

/-- One match step of the scan. -/
theorem extractVariablesL_match {cs : List Char} {r : List String × Nat}
    (h : matchPlaceholder cs = some r) :
    extractVariablesL cs = r.1 ++ extractVariablesL (cs.drop r.2) := by
  have hne : cs ≠ [] := by
    intro h0
    rw [h0, matchPlaceholder_nil] at h
    exact Option.noConfusion h
  obtain ⟨c, cs', rfl⟩ := List.exists_cons_of_ne_nil hne
  rw [extractVariablesL]
  simp only [List.length_cons]
  simp only [extractLoopF, h]
  have hpos := matchPlaceholder_pos h
  refine congrArg (r.1 ++ ·) ?_
  rw [extractVariablesL]
  refine extractLoopF_fuel _ _ _ ?_ (Nat.le_refl _)
  rw [List.length_drop]
  simp only [List.length_cons]
  omega

/-- One skip step of the scan. -/
theorem extractVariablesL_skip {c : Char} {cs : List Char}
    (h : matchPlaceholder (c :: cs) = none) :
    extractVariablesL (c :: cs) = extractVariablesL cs := by
  rw [extractVariablesL]
  simp only [List.length_cons]
  simp only [extractLoopF, h]
  rfl

/-- The scan ignores any run of brace-free characters. -/
theorem extractVariablesL_skips (t : List Char) :
    ∀ cs, (∀ c ∈ t, c ≠ '\x7b') →
      extractVariablesL (t ++ cs) = extractVariablesL cs := by
  induction t with
  | nil => intro cs _; rfl
  | cons c t' ih =>
      intro cs hall
      rw [List.cons_append,
        extractVariablesL_skip (matchPlaceholder_not_brace _ (hall c (List.mem_cons_self _ _))),
        ih cs (fun x hx => hall x (List.mem_cons_of_mem _ hx))]

/-- A string with no placeholder at any position extracts nothing. -/
theorem extractVariablesL_no_match (cs : List Char)
    (h : ∀ i < cs.length, matchPlaceholder (cs.drop i) = none) :
    extractVariablesL cs = [] := by
  induction cs with
  | nil => rfl
  | cons c cs' ih =>
      rw [extractVariablesL_skip (by simpa using h 0 (by simp))]
      refine ih ?_
      intro i hi
      have := h (i + 1) (by simp only [List.length_cons]; omega)
      simpa using this

theorem drop_two_cons {l : List Char} {n : Nat} (a b : Char) :
    (a :: b :: l).drop (n + 2) = l.drop n := by
  rw [show n + 2 = n + 1 + 1 by omega, List.drop_succ_cons, List.drop_succ_cons]

theorem drop_append_length {l1 : List Char} (X : List Char) (k : Nat) :
    (l1 ++ X).drop (l1.length + k) = X.drop k := by
  rw [← List.drop_drop, List.drop_left]

/-- Composition: a simple placeholder at the head of the scan yields its
name and the scan continues right after it. -/
theorem extractVariablesL_simple_step (name tail : List Char)
    (hne : name ≠ []) (hall : ∀ c ∈ name, isNameChar c) :
    extractVariablesL ('\x7b' :: '\x7b' :: (name ++ '\x7d' :: '\x7d' :: tail)) =
      String.mk name :: extractVariablesL tail := by
  rw [extractVariablesL_match (matchPlaceholder_simple name tail hne hall)]
  have hdrop : ('\x7b' :: '\x7b' :: (name ++ '\x7d' :: '\x7d' :: tail)).drop (name.length + 4) =
      tail := by
    rw [show name.length + 4 = (name.length + 2) + 2 by omega, drop_two_cons,
      drop_append_length]
    rfl
  rw [hdrop]
  rfl

/-- Composition: a paren-spelling base64 placeholder at the head yields
both names in order and the scan continues right after it. -/
theorem extractVariablesL_base64_step (A B tail : List Char)
    (hA : A ≠ []) (hB : B ≠ [])
    (hallA : ∀ c ∈ A, isNameChar c) (hallB : ∀ c ∈ B, isNameChar c) :
    extractVariablesL ('\x7b' :: '\x7b' ::
        (base64Head ++ (A ++ ':' :: (B ++ ')' :: '\x7d' :: '\x7d' :: tail)))) =
      String.mk A :: String.mk B :: extractVariablesL tail := by
  rw [extractVariablesL_match (matchPlaceholder_base64 A B tail hA hB hallA hallB)]
  have hdrop : ('\x7b' :: '\x7b' ::
      (base64Head ++ (A ++ ':' :: (B ++ ')' :: '\x7d' :: '\x7d' :: tail)))).drop
        (A.length + B.length + 13) = tail := by
    rw [show A.length + B.length + 13 = (A.length + B.length + 11) + 2 by omega,
      drop_two_cons,
      show A.length + B.length + 11 = base64Head.length + (A.length + (B.length + 4)) by
        simp only [base64Head, List.length_cons, List.length_nil]; omega,
      drop_append_length, drop_append_length,
      show B.length + 4 = (B.length + 3) + 1 by omega, List.drop_succ_cons,
      drop_append_length]
    rfl
  rw [hdrop]
  rfl

/-- Composition: a colon-spelling base64 placeholder at the head yields the
literal inner text as one name. -/
theorem extractVariablesL_base64_colon_step (A B tail : List Char)
    (hA : A ≠ []) (hB : B ≠ [])
    (hallA : ∀ c ∈ A, isNameChar c) (hallB : ∀ c ∈ B, isNameChar c) :
    extractVariablesL ('\x7b' :: '\x7b' ::
        ((base64ColonHead ++ (A ++ ':' :: (B ++ [')']))) ++ '\x7d' :: '\x7d' :: tail)) =
      String.mk (base64ColonHead ++ (A ++ ':' :: (B ++ [')']))) :: extractVariablesL tail := by
  rw [extractVariablesL_match (matchPlaceholder_base64_colon A B tail hA hB hallA hallB)]
  have hdrop : ('\x7b' :: '\x7b' ::
      ((base64ColonHead ++ (A ++ ':' :: (B ++ [')']))) ++ '\x7d' :: '\x7d' :: tail)).drop
        ((base64ColonHead ++ (A ++ ':' :: (B ++ [')']))).length + 4) = tail := by
    rw [show (base64ColonHead ++ (A ++ ':' :: (B ++ [')']))).length + 4 =
        ((base64ColonHead ++ (A ++ ':' :: (B ++ [')']))).length + 2) + 2 by omega,
      drop_two_cons, drop_append_length]
    rfl
  rw [hdrop]
  rfl

theorem extractVariablesL_no_brace (t : List Char) (h : ∀ c ∈ t, c ≠ '\x7b') :
    extractVariablesL t = [] := by
  have := extractVariablesL_skips t [] h
  rwa [List.append_nil] at this

/-! ## Claim C8 -/

/-- Claim C8: extractVariables is total and returns the reference results:
the API_KEY placeholder yields exactly that name; the base64 pair yields
both names in order; a string with no placeholder match at any position
yields the empty list; and a string carrying two placeholders in otherwise
brace-free text yields both names in left-to-right order. -/
theorem extractVariables_reference_results :
    extractVariables "\x7b\x7bAPI_KEY\x7d\x7d" = ["API_KEY"] ∧
    extractVariables "\x7b\x7bbase64(USER:PASS)\x7d\x7d" = ["USER", "PASS"] ∧
    (∀ s : String, (∀ i < s.data.length, matchPlaceholder (s.data.drop i) = none) →
      extractVariables s = []) ∧
    (∀ pre nameA mid nameB post : String,
      (∀ c ∈ pre.data, c ≠ '\x7b') → (∀ c ∈ mid.data, c ≠ '\x7b') →
      (∀ c ∈ post.data, c ≠ '\x7b') →
      nameA.data ≠ [] → (∀ c ∈ nameA.data, isNameChar c) →
      nameB.data ≠ [] → (∀ c ∈ nameB.data, isNameChar c) →
      extractVariables
        (pre ++ "\x7b\x7b" ++ nameA ++ "\x7d\x7d" ++ mid ++
         "\x7b\x7b" ++ nameB ++ "\x7d\x7d" ++ post) = [nameA, nameB]) := by
  refine ⟨by decide, by decide, ?_, ?_⟩
  · intro s h
    exact extractVariablesL_no_match s.data h
  · intro pre nameA mid nameB post hpre hmid hpost hA hallA hB hallB
    have hdata : (pre ++ "\x7b\x7b" ++ nameA ++ "\x7d\x7d" ++ mid ++
        "\x7b\x7b" ++ nameB ++ "\x7d\x7d" ++ post).data =
        pre.data ++ ('\x7b' :: '\x7b' :: (nameA.data ++ '\x7d' :: '\x7d' ::
          (mid.data ++ ('\x7b' :: '\x7b' ::
            (nameB.data ++ '\x7d' :: '\x7d' :: post.data))))) := by
      simp only [String.data_append, List.append_assoc]
      rfl
    show extractVariablesL (pre ++ "\x7b\x7b" ++ nameA ++ "\x7d\x7d" ++ mid ++
        "\x7b\x7b" ++ nameB ++ "\x7d\x7d" ++ post).data = [nameA, nameB]
    rw [hdata]
    rw [extractVariablesL_skips pre.data _ hpre]
    rw [extractVariablesL_simple_step nameA.data _ hA hallA]
    rw [extractVariablesL_skips mid.data _ hmid]
    rw [extractVariablesL_simple_step nameB.data _ hB hallB]
    rw [extractVariablesL_no_brace post.data hpost]

theorem extractVariables_reference_results_witness :
    extractVariables "no placeholders here" = [] ∧
    extractVariables ("a " ++ "\x7b\x7b" ++ "K1" ++ "\x7d\x7d" ++ " b " ++
      "\x7b\x7b" ++ "K2" ++ "\x7d\x7d" ++ " c") = ["K1", "K2"] :=
  ⟨extractVariables_reference_results.2.2.1 "no placeholders here" (by decide),
   extractVariables_reference_results.2.2.2 "a " "K1" " b " "K2" " c"
     (by decide) (by decide) (by decide) (by decide) (by decide) (by decide) (by decide)⟩

/-! ## Claim C3 -/

/-- Counterexample to claim C3: the colon spelling is NOT recognized as a
base64 pair by the source pattern (whose base64 branch requires an open
paren directly after base64): it falls through to the simple branch and
yields the literal inner text, not the two names. -/
theorem base64_colon_spelling_cex :
    extractVariables "\x7b\x7bbase64:(USER:PASS)\x7d\x7d" = ["base64:(USER:PASS)"] ∧
    extractVariables "\x7b\x7bbase64:(USER:PASS)\x7d\x7d" ≠ ["USER", "PASS"] := by
  constructor
  · decide
  · decide

/-- Claim C3 (amended): only the paren spelling of the base64 pair yields
the two names A then B; the colon spelling is treated as a simple
placeholder and yields the literal inner text. -/
theorem base64_pair_spellings (A B : String)
    (hA : A.data ≠ []) (hallA : ∀ c ∈ A.data, isNameChar c)
    (hB : B.data ≠ []) (hallB : ∀ c ∈ B.data, isNameChar c) :
    extractVariables ("\x7b\x7bbase64(" ++ A ++ ":" ++ B ++ ")\x7d\x7d") = [A, B] ∧
    extractVariables ("\x7b\x7bbase64:(" ++ A ++ ":" ++ B ++ ")\x7d\x7d") =
      ["base64:(" ++ A ++ ":" ++ B ++ ")"] := by
  constructor
  · have hdata : ("\x7b\x7bbase64(" ++ A ++ ":" ++ B ++ ")\x7d\x7d").data =
        '\x7b' :: '\x7b' ::
          (base64Head ++ (A.data ++ ':' :: (B.data ++ ')' :: '\x7d' :: '\x7d' :: []))) := by
      simp only [String.data_append, List.append_assoc]
      rfl
    show extractVariablesL ("\x7b\x7bbase64(" ++ A ++ ":" ++ B ++ ")\x7d\x7d").data = [A, B]
    rw [hdata, extractVariablesL_base64_step A.data B.data [] hA hB hallA hallB,
      extractVariablesL_nil]
  · have hdata : ("\x7b\x7bbase64:(" ++ A ++ ":" ++ B ++ ")\x7d\x7d").data =
        '\x7b' :: '\x7b' ::
          ((base64ColonHead ++ (A.data ++ ':' :: (B.data ++ [')']))) ++
            '\x7d' :: '\x7d' :: []) := by
      simp only [String.data_append, List.append_assoc, List.cons_append, base64ColonHead]
      rfl
    show extractVariablesL ("\x7b\x7bbase64:(" ++ A ++ ":" ++ B ++ ")\x7d\x7d").data = _
    rw [hdata, extractVariablesL_base64_colon_step A.data B.data [] hA hB hallA hallB,
      extractVariablesL_nil]
    refine congrArg (fun s => [s]) (String.ext ?_)
    simp only [String.data_append, List.append_assoc, List.cons_append, base64ColonHead]
    rfl

theorem base64_pair_spellings_witness :
    extractVariables ("\x7b\x7bbase64(" ++ "UA" ++ ":" ++ "PB" ++ ")\x7d\x7d") =
      ["UA", "PB"] ∧
    extractVariables ("\x7b\x7bbase64:(" ++ "UA" ++ ":" ++ "PB" ++ ")\x7d\x7d") =
      ["base64:(" ++ "UA" ++ ":" ++ "PB" ++ ")"] :=
  base64_pair_spellings "UA" "PB" (by decide) (by decide) (by decide) (by decide)

end GoManifest
